import Mathlib

/-!
Verification of the core of the `racist` path tracer (BVH traversal,
path-tracing integrator, PBR BSDF) against its natural-language
specification.

Modelling conventions
* `f32` values are embedded as exact rationals (`ℚ`).  The source's float
  literals (`1e-6`, `0.001`, `1e6`, `15.0`, …) become the corresponding exact
  rationals.  IEEE non-finite values are modelled where they matter:
  the AABB slab test (`intersect_aabb` in `kernels/simple/src/inter.rs`)
  divides by ray-direction components that may be zero, so it is embedded
  over an extended type `F32` with `+∞`/`-∞`/`NaN` and Rust's `f32::min` /
  `f32::max` semantics.  Elsewhere the pipeline stays in `ℚ`, and
  "non-finite" is modelled as "magnitude at least `f32::MAX`" — exactly the
  test the source's own `mask_nan` performs.
* Transcendental primitives (`sqrt`, `sin`, `cos`, `acos`, `atan`, `π`) have
  no exact rational counterpart; every definition that uses them is
  parametrised by a bundle `MathPrims` of rational stand-ins.  Structural
  claims are proved for every such bundle, hence in particular for the real
  functions.
* Machine integers (`u32`, `usize`) are embedded as `ℕ`; the traversal loop
  is embedded with an explicit fuel parameter (the Rust loop runs until its
  stack empties; fuel-sufficiency is a hypothesis where termination matters).
* `rng.rs`, `vec.rs` and `skybox.rs` of the kernel crate are not part of the
  sources; per the specification they are modelled as follows: the RNG as an
  abstract stream of rationals consumed in order (spec §4.4), the fixed
  traversal stack as a stack of node indices (spec §4.3/§5), and the skybox
  as an abstract external function (spec §4.8 step 2).
-/

set_option maxHeartbeats 1600000

namespace Racist

/-- 3-component vector over exact rationals, standing for `glam::Vec3`. -/
structure Vec3 where
  x : ℚ
  y : ℚ
  z : ℚ
deriving DecidableEq, Repr

namespace Vec3

def add (a b : Vec3) : Vec3 := ⟨a.x + b.x, a.y + b.y, a.z + b.z⟩

def sub (a b : Vec3) : Vec3 := ⟨a.x - b.x, a.y - b.y, a.z - b.z⟩

def neg (a : Vec3) : Vec3 := ⟨-a.x, -a.y, -a.z⟩

/-- Componentwise product (`glam` `Vec3 * Vec3`). -/
def mul (a b : Vec3) : Vec3 := ⟨a.x * b.x, a.y * b.y, a.z * b.z⟩

/-- Scalar product (`Vec3 * f32`). -/
def smul (s : ℚ) (a : Vec3) : Vec3 := ⟨s * a.x, s * a.y, s * a.z⟩

/-- Componentwise quotient (`glam` `Vec3 / Vec3`); division by a zero
component follows the Lean `ℚ` convention `q / 0 = 0`. -/
def div (a b : Vec3) : Vec3 := ⟨a.x / b.x, a.y / b.y, a.z / b.z⟩

/-- `Vec3 / f32`. -/
def sdiv (a : Vec3) (s : ℚ) : Vec3 := ⟨a.x / s, a.y / s, a.z / s⟩

def dot (a b : Vec3) : ℚ := a.x * b.x + a.y * b.y + a.z * b.z

def cross (a b : Vec3) : Vec3 :=
  ⟨a.y * b.z - a.z * b.y, a.z * b.x - a.x * b.z, a.x * b.y - a.y * b.x⟩

def zero : Vec3 := ⟨0, 0, 0⟩

def one : Vec3 := ⟨1, 1, 1⟩

/-- `Vec3::max_element`: `x.max(y).max(z)` (no NaN among exact rationals). -/
def max_element (a : Vec3) : ℚ := max (max a.x a.y) a.z

/-- `Vec3::lerp` (componentwise `a + (b - a) * t`). -/
def vlerp (a b : Vec3) (t : ℚ) : Vec3 :=
  add a (smul t (sub b a))

def splat (s : ℚ) : Vec3 := ⟨s, s, s⟩

end Vec3

/-- 2-component vector over exact rationals (`glam::Vec2`). -/
structure Vec2 where
  x : ℚ
  y : ℚ
deriving DecidableEq, Repr

namespace Vec2

def add (a b : Vec2) : Vec2 := ⟨a.x + b.x, a.y + b.y⟩

def mul (a b : Vec2) : Vec2 := ⟨a.x * b.x, a.y * b.y⟩

def smul (s : ℚ) (a : Vec2) : Vec2 := ⟨s * a.x, s * a.y⟩

/-- glam `fract`: `self - self.floor()`, componentwise. -/
def fract (a : Vec2) : Vec2 := ⟨a.x - ⌊a.x⌋, a.y - ⌊a.y⌋⟩

/-- Componentwise clamp to `[lo, hi]`. -/
def clamp (a lo hi : Vec2) : Vec2 :=
  ⟨max lo.x (min a.x hi.x), max lo.y (min a.y hi.y)⟩

end Vec2

/-- 4-component vector over exact rationals (`glam::Vec4`). -/
structure Vec4 where
  x : ℚ
  y : ℚ
  z : ℚ
  w : ℚ
deriving DecidableEq, Repr

namespace Vec4

def xyz (a : Vec4) : Vec3 := ⟨a.x, a.y, a.z⟩

def xy (a : Vec4) : Vec2 := ⟨a.x, a.y⟩

def zw (a : Vec4) : Vec2 := ⟨a.z, a.w⟩

def zero : Vec4 := ⟨0, 0, 0, 0⟩

end Vec4

/-- `UVec4` triangle record: three vertex indices and a material index
(`(i0, i1, i2, m)` laid out as `x, y, z, w`). -/
structure UVec4 where
  x : ℕ
  y : ℕ
  z : ℕ
  w : ℕ
deriving DecidableEq, Repr

/-- Source constant `EPS = 0.001` (`kernels/simple/src/util.rs`). -/
def EPS : ℚ := 1/1000

/-- The Möller–Trumbore determinant threshold `1e-6`. -/
def DET_EPS : ℚ := 1/1000000

/-- `Trace::miss` uses `len = 1e6`. -/
def MISS_LEN : ℚ := 1000000

/-- Result of `muller_trumbore`: the returned `bool`, the out-parameter `t`
(left at its initial `0.0` on every early `return false`), and the
out-parameter back-face flag (always set before the determinant test). -/
structure MTResult where
  hit : Bool
  t : ℚ
  backface : Bool
deriving DecidableEq, Repr

/-- `muller_trumbore` (`kernels/simple/src/inter.rs`): Möller–Trumbore
ray/triangle intersection with determinant threshold `1e-6`; back-face iff
the determinant is negative. -/
def muller_trumbore (ro rd a b c : Vec3) : MTResult :=
  let edge1 := b.sub a
  let edge2 := c.sub a
  let pv := rd.cross edge2
  let det := edge1.dot pv
  let backface := decide (det < 0)
  if |det| < DET_EPS then ⟨false, 0, backface⟩ else
  let inv_det := 1 / det
  let tv := ro.sub a
  let u := tv.dot pv * inv_det
  if u < 0 ∨ u > 1 then ⟨false, 0, backface⟩ else
  let qv := tv.cross edge1
  let v := rd.dot qv * inv_det
  if v < 0 ∨ u + v > 1 then ⟨false, 0, backface⟩ else
  let t := edge2.dot qv * inv_det
  if t < 0 then ⟨false, 0, backface⟩ else
  ⟨true, t, backface⟩

/-- `PerVertexData` (`shared/src/lib.rs`): position, shading normal, tangent
(each used through `.xyz()`) and the first UV channel. -/
structure PerVertexData where
  vertex : Vec3
  normal : Vec3
  tangent : Vec3
  uv0 : Vec2
deriving DecidableEq, Repr

instance : Inhabited PerVertexData :=
  ⟨⟨Vec3.zero, Vec3.zero, Vec3.zero, ⟨0, 0⟩⟩⟩

/-- `Trace` (`kernels/simple/src/inter.rs`). -/
structure Trace where
  triangle : UVec4
  triangle_index : ℕ
  len : ℚ
  hit : Bool
  backface : Bool
deriving DecidableEq, Repr

/-- `Trace::miss()`. -/
def Trace.miss : Trace :=
  ⟨⟨0, 0, 0, 0⟩, 0, MISS_LEN, false, false⟩

/-- The body of the triangle loop shared by `intersect_slow_as_shit` and the
leaf case of `intersect_front_to_back`: test triangle `i` and update the
running best `Trace` on an accepted strict improvement. -/
def traceUpdate (vb : List PerVertexData) (ib : List UVec4) (ro rd : Vec3)
    (r : Trace) (i : ℕ) : Trace :=
  let tri := ib.getD i ⟨0, 0, 0, 0⟩
  let a := (vb.getD tri.x default).vertex
  let b := (vb.getD tri.y default).vertex
  let c := (vb.getD tri.z default).vertex
  let m := muller_trumbore ro rd a b c
  if m.hit = true ∧ EPS < m.t ∧ m.t < r.len then
    ⟨tri, i, min r.len m.t, true, m.backface⟩
  else r

/-- `intersect_slow_as_shit` (`kernels/simple/src/inter.rs`): linear scan of
the whole index buffer. -/
def intersect_slow_as_shit (vb : List PerVertexData) (ib : List UVec4)
    (ro rd : Vec3) : Trace :=
  (List.range ib.length).foldl (traceUpdate vb ib ro rd) Trace.miss

/-- `f32::MAX` as an exact rational: `(2 - 2⁻²³) · 2¹²⁷`. -/
def F32MAX : ℚ := 2 ^ 128 - 2 ^ 104

/-- Extended float value for the slab test: exact rational, signed infinity,
or NaN.  (There is no negative zero: the quotient `a / ±0.0` is modelled as
the infinity signed by `a`, and `0 / 0` as NaN, which is what the slab test
encounters.) -/
inductive F32 where
  | nan : F32
  | pinf : F32
  | ninf : F32
  | val : ℚ → F32
deriving DecidableEq, Repr

namespace F32

/-- Division of finite values, producing infinities / NaN on a zero
denominator as IEEE `f32` division does. -/
def fdiv (a b : ℚ) : F32 :=
  if b ≠ 0 then .val (a / b)
  else if a = 0 then .nan
  else if 0 < a then .pinf
  else .ninf

/-- Rust `f32::min`: if one argument is NaN the other is returned. -/
def fmin : F32 → F32 → F32
  | .nan, b => b
  | a, .nan => a
  | .ninf, _ => .ninf
  | _, .ninf => .ninf
  | .pinf, b => b
  | a, .pinf => a
  | .val p, .val q => .val (min p q)

/-- Rust `f32::max`: if one argument is NaN the other is returned. -/
def fmax : F32 → F32 → F32
  | .nan, b => b
  | a, .nan => a
  | .pinf, _ => .pinf
  | _, .pinf => .pinf
  | .ninf, b => b
  | a, .ninf => a
  | .val p, .val q => .val (max p q)

/-- IEEE `<`: false whenever either operand is NaN. -/
def flt : F32 → F32 → Bool
  | .nan, _ => false
  | _, .nan => false
  | .ninf, .ninf => false
  | .ninf, _ => true
  | _, .ninf => false
  | .pinf, _ => false
  | .val _, .pinf => true
  | .val p, .val q => decide (p < q)

/-- IEEE `<=`: false whenever either operand is NaN. -/
def fle : F32 → F32 → Bool
  | .nan, _ => false
  | _, .nan => false
  | .ninf, _ => true
  | _, .ninf => false
  | _, .pinf => true
  | .pinf, _ => false
  | .val p, .val q => decide (p ≤ q)

/-- IEEE `==`: NaN is not equal to anything, including itself. -/
def feq : F32 → F32 → Bool
  | .nan, _ => false
  | _, .nan => false
  | .pinf, .pinf => true
  | .ninf, .ninf => true
  | .val p, .val q => decide (p = q)
  | _, _ => false

def fabs : F32 → F32
  | .nan => .nan
  | .pinf => .pinf
  | .ninf => .pinf
  | .val q => .val |q|

end F32

/-- `intersect_aabb` (`kernels/simple/src/inter.rs`): slab test returning the
entry distance `tmin`, or `f32::MAX` when the box is missed, behind the ray,
or no nearer than `prev_min_t`.  The divisions by the ray-direction
components follow IEEE `f32` semantics (signed infinities and NaN), and
`min`/`max` follow Rust's NaN-dropping semantics. -/
def intersect_aabb (aabb_min aabb_max ro rd : Vec3) (prev_min_t : ℚ) : F32 :=
  let tx1 := F32.fdiv (aabb_min.x - ro.x) rd.x
  let tx2 := F32.fdiv (aabb_max.x - ro.x) rd.x
  let tmin := tx1.fmin tx2
  let tmax := tx1.fmax tx2
  let ty1 := F32.fdiv (aabb_min.y - ro.y) rd.y
  let ty2 := F32.fdiv (aabb_max.y - ro.y) rd.y
  let tmin := tmin.fmax (ty1.fmin ty2)
  let tmax := tmax.fmin (ty1.fmax ty2)
  let tz1 := F32.fdiv (aabb_min.z - ro.z) rd.z
  let tz2 := F32.fdiv (aabb_max.z - ro.z) rd.z
  let tmin := tmin.fmax (tz1.fmin tz2)
  let tmax := tmax.fmin (tz1.fmax tz2)
  if F32.fle tmin tmax && F32.flt (F32.val 0) tmax && F32.flt tmin (F32.val prev_min_t)
  then tmin
  else F32.val F32MAX

/-- `BVHNode` (`shared/src/lib.rs`): AABB bounds plus the two `w`-lane
payloads — `triangle_count` (`aabb_min.w`; `0` means interior) and `ptr`
(`aabb_max.w`; `left_node_index` for interior nodes, `first_triangle_index`
for leaves).  The right child is implicitly `ptr + 1`. -/
structure BVHNode where
  aabb_min : Vec3
  aabb_max : Vec3
  triangle_count : ℕ
  ptr : ℕ
deriving DecidableEq, Repr

/-- `BVHNode::default()`: inverted infinite-ish bounds with zeroed `w` lanes
(`triangle_count = 0`, so a default node reads as an interior node). -/
instance : Inhabited BVHNode := ⟨⟨⟨F32MAX, F32MAX, F32MAX⟩, ⟨-F32MAX, -F32MAX, -F32MAX⟩, 0, 0⟩⟩

def BVHNode.is_leaf (n : BVHNode) : Bool := n.triangle_count > 0

/-- The `for i in 0..triangle_count` loop of a leaf in
`intersect_front_to_back`: `idx` is the running `first_triangle_index + i`,
`k` the remaining iterations.  The boolean is `true` when the any-hit mode
returned from inside the loop (first accepted hit). -/
def leafLoop (NEAREST : Bool) (vb : List PerVertexData) (ib : List UVec4)
    (ro rd : Vec3) (max_t : ℚ) : ℕ → ℕ → Trace → Trace × Bool
  | _, 0, r => (r, false)
  | idx, k + 1, r =>
    let tri := ib.getD idx ⟨0, 0, 0, 0⟩
    let a := (vb.getD tri.x default).vertex
    let b := (vb.getD tri.y default).vertex
    let c := (vb.getD tri.z default).vertex
    let m := muller_trumbore ro rd a b c
    if m.hit = true ∧ EPS < m.t ∧ m.t < r.len ∧ (NEAREST = true ∨ m.t ≤ max_t) then
      let r' : Trace := ⟨tri, idx, min r.len m.t, true, m.backface⟩
      if NEAREST then leafLoop NEAREST vb ib ro rd max_t (idx + 1) k r'
      else (r', true)
    else leafLoop NEAREST vb ib ro rd max_t (idx + 1) k r

/-- `intersect_front_to_back` (`kernels/simple/src/inter.rs`): ordered
stack-based traversal, parametrised by the `NEAREST` mode flag.  The Rust
`while` loop over the fixed-capacity stack is embedded with an explicit
fuel parameter and a stack of node indices. -/
def intersect_front_to_back (NEAREST : Bool) (nodes : List BVHNode)
    (vb : List PerVertexData) (ib : List UVec4) (ro rd : Vec3) (max_t : ℚ) :
    ℕ → List ℕ → Trace → Trace
  | 0, _, r => r
  | _ + 1, [], r => r
  | fuel + 1, node_index :: stack, r =>
    let node := nodes.getD node_index default
    if node.is_leaf then
      match leafLoop NEAREST vb ib ro rd max_t node.ptr node.triangle_count r with
      | (r', early) =>
        if early then r'
        else intersect_front_to_back NEAREST nodes vb ib ro rd max_t fuel stack r'
    else
      let lchild := nodes.getD node.ptr default
      let rchild := nodes.getD (node.ptr + 1) default
      let ldist := intersect_aabb lchild.aabb_min lchild.aabb_max ro rd r.len
      let rdist := intersect_aabb rchild.aabb_min rchild.aabb_max ro rd r.len
      let swapped := F32.flt rdist ldist
      let min_index := if swapped then node.ptr + 1 else node.ptr
      let max_index := if swapped then node.ptr else node.ptr + 1
      let min_dist := if swapped then rdist else ldist
      let max_dist := if swapped then ldist else rdist
      if F32.feq min_dist.fabs (F32.val F32MAX) then
        intersect_front_to_back NEAREST nodes vb ib ro rd max_t fuel stack r
      else
        let stack' := if F32.flt max_dist.fabs (F32.val F32MAX)
          then max_index :: stack else stack
        intersect_front_to_back NEAREST nodes vb ib ro rd max_t fuel
          (min_index :: stack') r

/-- `BVHReference::intersect_nearest`: nearest-hit traversal (`max_t` is
passed as `0.0` and ignored by the `NEAREST` mode). -/
def intersect_nearest (nodes : List BVHNode) (vb : List PerVertexData)
    (ib : List UVec4) (ro rd : Vec3) (fuel : ℕ) : Trace :=
  intersect_front_to_back true nodes vb ib ro rd 0 fuel [0] Trace.miss

/-- `BVHReference::intersect_any`: any-hit traversal honouring `max_t`. -/
def intersect_any (nodes : List BVHNode) (vb : List PerVertexData)
    (ib : List UVec4) (ro rd : Vec3) (max_t : ℚ) (fuel : ℕ) : Trace :=
  intersect_front_to_back false nodes vb ib ro rd max_t fuel [0] Trace.miss

/-- Rational stand-ins for the transcendental `f32` primitives used by the
kernel (`sqrt`, trigonometry, `π`).  Definitions parametrised by a bundle
hold for every instantiation, in particular for the true functions. -/
structure MathPrims where
  pi : ℚ
  sqrt : ℚ → ℚ
  sin : ℚ → ℚ
  cos : ℚ → ℚ
  acos : ℚ → ℚ
  atan : ℚ → ℚ

namespace Vec3

/-- `Vec3::length`. -/
def length (P : MathPrims) (v : Vec3) : ℚ := P.sqrt (v.dot v)

/-- `Vec3::normalize`: division by the length. -/
def normalize (P : MathPrims) (v : Vec3) : Vec3 := v.sdiv (v.length P)

end Vec3

/-- `create_cartesian` (`kernels/simple/src/util.rs`). -/
def create_cartesian (P : MathPrims) (up : Vec3) : Vec3 × Vec3 × Vec3 :=
  let arbitrary : Vec3 := ⟨1/10, 1/2, 9/10⟩
  let temp_vec := (up.cross arbitrary).normalize P
  let right := (temp_vec.cross up).normalize P
  let forward := (up.cross right).normalize P
  (up, right, forward)

/-- `cos_hemisphere` (`kernels/simple/src/util.rs`). -/
def cos_hemisphere (P : MathPrims) (r1 r2 : ℚ) : Vec3 :=
  let theta := P.acos (P.sqrt r1)
  let phi := 2 * P.pi * r2
  ⟨P.sin theta * P.cos phi, P.cos theta, P.sin theta * P.sin phi⟩

/-- `ggx_distribution` (`kernels/simple/src/util.rs`). -/
def ggx_distribution (P : MathPrims) (normal halfway : Vec3) (roughness : ℚ) : ℚ :=
  let numerator := roughness * roughness
  let n_dot_h := max (normal.dot halfway) 0
  let denominator := (n_dot_h * n_dot_h) * (numerator - 1) + 1
  let denominator := max (P.pi * (denominator * denominator)) EPS
  numerator / denominator

/-- `fresnel_schlick` (`kernels/simple/src/util.rs`). -/
def fresnel_schlick (cos_theta : ℚ) (f0 : Vec3) : Vec3 :=
  (Vec3.one.sub f0).smul ((1 - cos_theta) ^ 5) |>.add f0

/-- `fresnel_schlick_scalar` (`kernels/simple/src/util.rs`). -/
def fresnel_schlick_scalar (in_ior out_ior cos_theta : ℚ) : ℚ :=
  let f0 := ((in_ior - out_ior) / (in_ior + out_ior)) ^ 2
  f0 + (1 - f0) * (1 - cos_theta) ^ 5

/-- `sample_ggx` (`kernels/simple/src/util.rs`): GGX half-vector sampling
around the reflection direction. -/
def sample_ggx (P : MathPrims) (r1 r2 : ℚ) (reflection_direction : Vec3)
    (roughness : ℚ) : Vec3 :=
  let a := roughness * roughness
  let phi := 2 * P.pi * r1
  let cos_theta := P.sqrt ((1 - r2) / (r2 * (a * a - 1) + 1))
  let sin_theta := P.sqrt (1 - cos_theta * cos_theta)
  let halfway : Vec3 := ⟨P.cos phi * sin_theta, P.sin phi * sin_theta, cos_theta⟩
  let up : Vec3 := if |reflection_direction.z| < 999/1000 then ⟨0, 0, 1⟩ else ⟨1, 0, 0⟩
  let tangent := (up.cross reflection_direction).normalize P
  let bitangent := reflection_direction.cross tangent
  ((tangent.smul halfway.x).add ((bitangent.smul halfway.y).add
    (reflection_direction.smul halfway.z))).normalize P

/-- `geometry_schlick_ggx` (`kernels/simple/src/util.rs`). -/
def geometry_schlick_ggx (normal view_direction : Vec3) (roughness : ℚ) : ℚ :=
  let numerator := max (normal.dot view_direction) 0
  let r := (roughness * roughness) / 8
  let denominator := numerator * (1 - r) + r
  numerator / denominator

/-- `geometry_smith_schlick_ggx` (`kernels/simple/src/util.rs`): the source
multiplies the view-side Schlick-GGX term by itself; the `light` parameter
is unused. -/
def geometry_smith_schlick_ggx (normal view _light : Vec3) (roughness : ℚ) : ℚ :=
  geometry_schlick_ggx normal view roughness * geometry_schlick_ggx normal view roughness

/-- `reflect` (`kernels/simple/src/util.rs`). -/
def reflect (i normal : Vec3) : Vec3 :=
  i.sub ((normal.smul (2 * i.dot normal)))

/-- `lerp` (`kernels/simple/src/util.rs`). -/
def lerp (a b t : ℚ) : ℚ := a * (1 - t) + b * t

/-- `power_heuristic` (`kernels/simple/src/util.rs`). -/
def power_heuristic (p1 p2 : ℚ) : ℚ := p1 * p1 / (p1 * p1 + p2 * p2)

/-- `barycentric` (`kernels/simple/src/util.rs`). -/
def barycentric (p a b c : Vec3) : Vec3 :=
  let v0 := b.sub a
  let v1 := c.sub a
  let v2 := p.sub a
  let d00 := v0.dot v0
  let d01 := v0.dot v1
  let d11 := v1.dot v1
  let d20 := v2.dot v0
  let d21 := v2.dot v1
  let denom := d00 * d11 - d01 * d01
  let v := (d11 * d20 - d01 * d21) / denom
  let w := (d00 * d21 - d01 * d20) / denom
  ⟨1 - v - w, v, w⟩

/-- `mask_nan` (`kernels/simple/src/util.rs`): pass the vector through
unless the absolute value of its maximum element reaches `f32::MAX`
(the in-model rendering of "is non-finite"). -/
def mask_nan (v : Vec3) : Vec3 :=
  if |v.max_element| < F32MAX then v else Vec3.zero

/-- C9.  `geometry_smith_schlick_ggx(normal, view, light, roughness)` equals
`geometry_schlick_ggx(normal, view, roughness)` squared, and in particular
is independent of the `light` argument: the source squares the view-side
term instead of combining view- and light-side terms. -/
theorem geometry_smith_squares_view_term (normal view light light' : Vec3)
    (roughness : ℚ) :
    geometry_smith_schlick_ggx normal view light roughness
        = geometry_schlick_ggx normal view roughness ^ 2 ∧
      geometry_smith_schlick_ggx normal view light roughness
        = geometry_smith_schlick_ggx normal view light' roughness := by
  constructor
  · rw [geometry_smith_schlick_ggx, sq]
  · rw [geometry_smith_schlick_ggx, geometry_smith_schlick_ggx]

/-- Modelled from the spec: `kernels/simple/src/rng.rs` is not among the
sources.  Spec §4.4 describes the sampler as a deterministic per-pixel
stream producing uniform floats consumed in a fixed order (`gen_r1`,
`gen_r2`, `gen_r3`); it is modelled as an abstract stream of rationals
with a cursor. -/
structure RngState where
  stream : ℕ → ℚ
  pos : ℕ

/-- `RngState::gen_r1`: one draw. -/
def RngState.gen_r1 (s : RngState) : ℚ × RngState :=
  (s.stream s.pos, ⟨s.stream, s.pos + 1⟩)

/-- `RngState::gen_r2`: two draws. -/
def RngState.gen_r2 (s : RngState) : Vec2 × RngState :=
  (⟨s.stream s.pos, s.stream (s.pos + 1)⟩, ⟨s.stream, s.pos + 2⟩)

/-- `RngState::gen_r3`: three draws. -/
def RngState.gen_r3 (s : RngState) : Vec3 × RngState :=
  (⟨s.stream s.pos, s.stream (s.pos + 1), s.stream (s.pos + 2)⟩, ⟨s.stream, s.pos + 3⟩)

/-- `Lobe` (`kernels/simple/src/bsdf.rs`). -/
inductive Lobe where
  | DiffuseReflection
  | SpecularReflection
  | DiffuseTransmission
  | SpecularTransmission
deriving DecidableEq, Repr

/-- `BSDFSample` (`kernels/simple/src/bsdf.rs`). -/
structure BSDFSample where
  pdf : ℚ
  lobe : Lobe
  spectrum : Vec3
  direction : Vec3
deriving DecidableEq, Repr

/-- `BSDFSample::default()` (all-zero fields, default lobe). -/
instance : Inhabited BSDFSample := ⟨⟨0, Lobe.DiffuseReflection, Vec3.zero, Vec3.zero⟩⟩

/-- `DIELECTRIC_IOR = 1.5` (`kernels/simple/src/bsdf.rs`). -/
def DIELECTRIC_IOR : ℚ := 3/2

/-- `DIELECTRIC_F0 = ((1.5 - 1) / (1.5 + 1))²`. -/
def DIELECTRIC_F0 : ℚ :=
  ((DIELECTRIC_IOR - 1) / (DIELECTRIC_IOR + 1)) * ((DIELECTRIC_IOR - 1) / (DIELECTRIC_IOR + 1))

/-- `PBR` (`kernels/simple/src/bsdf.rs`): the metallic-roughness BSDF. -/
structure PBR where
  albedo : Vec3
  roughness : ℚ
  metallic : ℚ
  clamp_weight : Vec2
deriving DecidableEq, Repr

namespace PBR

/-- `PBR::evaluate_diffuse_fast`. -/
def evaluate_diffuse_fast (P : MathPrims) (s : PBR)
    (cos_theta specular_weight : ℚ) (ks : Vec3) : Vec3 :=
  let kd := ((Vec3.splat 1).sub ks).smul (1 - s.metallic)
  let diffuse := (kd.mul s.albedo).sdiv P.pi
  (diffuse.smul cos_theta).sdiv (1 - specular_weight)

/-- `PBR::evaluate_specular_fast`. -/
def evaluate_specular_fast (s : PBR) (view normal sample : Vec3)
    (cos_theta d_term specular_weight : ℚ) (ks : Vec3) : Vec3 :=
  let g_term := geometry_smith_schlick_ggx normal view sample s.roughness
  let specular_numerator := ks.smul (d_term * g_term)
  let specular_denominator := 4 * max (normal.dot view) 0 * cos_theta
  let specular := specular_numerator.sdiv (max specular_denominator EPS)
  (specular.smul cos_theta).sdiv specular_weight

/-- `PBR::pdf_diffuse_fast`. -/
def pdf_diffuse_fast (P : MathPrims) (_s : PBR) (cos_theta : ℚ) : ℚ :=
  cos_theta / P.pi

/-- `PBR::pdf_specular_fast`. -/
def pdf_specular_fast (_s : PBR) (view_direction normal halfway : Vec3)
    (d_term : ℚ) : ℚ :=
  (d_term * normal.dot halfway) / (4 * view_direction.dot halfway)

/-- The clamped lobe-selection weight computed identically at the head of
`PBR::evaluate` and `PBR::sample`. -/
def specular_weight_of (s : PBR) (view normal : Vec3) : ℚ :=
  let approx_fresnel :=
    fresnel_schlick_scalar 1 DIELECTRIC_IOR (max (normal.dot view) 0)
  let specular_weight := lerp approx_fresnel 1 s.metallic
  if specular_weight ≠ 0 ∧ specular_weight ≠ 1 then
    min (max specular_weight s.clamp_weight.x) s.clamp_weight.y
  else specular_weight

/-- `PBR::evaluate` (`impl BSDF for PBR`). -/
def evaluate (P : MathPrims) (s : PBR) (view normal sample : Vec3)
    (lobe_type : Lobe) : Vec3 :=
  let specular_weight := s.specular_weight_of view normal
  let cos_theta := max (normal.dot sample) 0
  let halfway := (view.add sample).normalize P
  let f0 := (Vec3.splat DIELECTRIC_F0).vlerp s.albedo s.metallic
  let ks := fresnel_schlick (max (halfway.dot view) 0) f0
  if lobe_type = Lobe.DiffuseReflection then
    s.evaluate_diffuse_fast P cos_theta specular_weight ks
  else
    let d_term := ggx_distribution P normal halfway s.roughness
    s.evaluate_specular_fast view normal sample cos_theta d_term specular_weight ks

/-- `PBR::sample` (`impl BSDF for PBR`). -/
def sample (P : MathPrims) (s : PBR) (view normal : Vec3) (rng : RngState) :
    BSDFSample × RngState :=
  let (rng_sample, rng') := rng.gen_r3
  let specular_weight := s.specular_weight_of view normal
  let dl : Vec3 × Lobe :=
    if rng_sample.z ≥ specular_weight then
      let (up, nt, nb) := create_cartesian P normal
      let c := cos_hemisphere P rng_sample.x rng_sample.y
      let sampled_direction := Vec3.normalize P
        ⟨c.x * nb.x + c.y * up.x + c.z * nt.x,
         c.x * nb.y + c.y * up.y + c.z * nt.y,
         c.x * nb.z + c.y * up.z + c.z * nt.z⟩
      (sampled_direction, Lobe.DiffuseReflection)
    else
      let reflection_direction := reflect view.neg normal
      (sample_ggx P rng_sample.x rng_sample.y reflection_direction s.roughness,
        Lobe.SpecularReflection)
  let direction := dl.1
  let cos_theta := max (normal.dot direction) EPS
  let halfway := (view.add direction).normalize P
  let f0 := (Vec3.splat DIELECTRIC_F0).vlerp s.albedo s.metallic
  let ks := fresnel_schlick (max (halfway.dot view) 0) f0
  if dl.2 = Lobe.DiffuseReflection then
    (⟨s.pdf_diffuse_fast P cos_theta, Lobe.DiffuseReflection,
      s.evaluate_diffuse_fast P cos_theta specular_weight ks, direction⟩, rng')
  else
    let d_term := ggx_distribution P normal halfway s.roughness
    (⟨s.pdf_specular_fast view normal halfway d_term, Lobe.SpecularReflection,
      s.evaluate_specular_fast view normal direction cos_theta d_term specular_weight ks,
      direction⟩, rng')

/-- `PBR::pdf` (`impl BSDF for PBR`). -/
def pdf (P : MathPrims) (s : PBR) (view normal sample : Vec3)
    (lobe_type : Lobe) : ℚ :=
  if lobe_type = Lobe.DiffuseReflection then
    let cos_theta := max (normal.dot sample) 0
    s.pdf_diffuse_fast P cos_theta
  else
    let halfway := (view.add sample).normalize P
    let d_term := ggx_distribution P normal halfway s.roughness
    s.pdf_specular_fast view normal halfway d_term

end PBR

/-- C3 (amended).  `PBR::sample` folds `f · cosθ` —`evaluate` at the sampled
direction and lobe — into `spectrum`, and returns the matching `pdf`; the
division by `pdf` is NOT folded into `spectrum` (the integrator performs
`spectrum / pdf` itself).  The identity holds whenever the sampled
direction's cosine is at least `ε = 1e-3` (`sample` clamps the cosine to
`ε` where `evaluate`/`pdf` clamp it to `0`). -/
theorem pbr_sample_spectrum_is_evaluate (P : MathPrims) (s : PBR)
    (view normal : Vec3) (rng : RngState)
    (h : EPS ≤ normal.dot (s.sample P view normal rng).1.direction) :
    (s.sample P view normal rng).1.spectrum
        = s.evaluate P view normal (s.sample P view normal rng).1.direction
            (s.sample P view normal rng).1.lobe ∧
      (s.sample P view normal rng).1.pdf
        = s.pdf P view normal (s.sample P view normal rng).1.direction
            (s.sample P view normal rng).1.lobe := by
  have hEPS : (0 : ℚ) ≤ EPS := by norm_num [EPS]
  by_cases hz : (rng.gen_r3).1.z ≥ s.specular_weight_of view normal
  · simp only [PBR.sample, hz, if_true, if_pos] at h ⊢
    have h0 : (0 : ℚ) ≤ normal.dot _ := le_trans hEPS h
    simp only [PBR.evaluate, PBR.pdf, if_pos rfl, max_eq_left h, max_eq_left h0]
    exact ⟨rfl, rfl⟩
  · simp only [PBR.sample, hz, if_false, if_neg, reduceCtorEq, if_true] at h ⊢
    simp only [PBR.evaluate, PBR.pdf, reduceCtorEq, if_neg, if_false]
    rw [max_eq_left h, max_eq_left (le_trans hEPS h)]
    refine ⟨?_, ?_⟩ <;> first | rfl | trivial

/-- Rational square-root stand-in agreeing with the exact square root at
every point at which the C3 instantiation evaluates it. -/
def sqrtTable (q : ℚ) : ℚ :=
  if q = 49/625 then 7/25
  else if q = 576/625 then 24/25
  else if q = 1 then 1
  else if q = 64/25 then 8/5
  else 0

/-- Concrete primitive bundle for evaluating the BSDF at rational points:
`π ↦ 3` (any positive stand-in), the square root of `sqrtTable`, and
`cos 0 = 1`, `sin 0 = 0` (the only trigonometric arguments reached are 0). -/
def Pc : MathPrims :=
  ⟨3, sqrtTable, fun _ => 0, fun q => if q = 0 then 1 else 0, fun _ => 0, fun _ => 0⟩

/-- A fully rough, non-metallic white PBR surface. -/
def pbrC3 : PBR := ⟨⟨1, 1, 1⟩, 1, 0, ⟨1/10, 9/10⟩⟩

/-- RNG draws `(r1, r2, r3) = (0, 576/625, 0)`: `r3 = 0 < specular_weight`
selects the specular lobe; `r2` makes the GGX angles exactly rational. -/
def rngC3 : RngState := ⟨fun n => if n = 1 then 576/625 else 0, 0⟩

/-- C3, counterexample to the claim as stated: at a concrete input the
`BSDFSample` returned by `PBR::sample` has
`spectrum ≠ evaluate(view, normal, direction, lobe) / pdf(view, normal,
direction, lobe)` — here `spectrum = 3149/93750` per channel while
`evaluate / pdf` is `12·spectrum` (the division by `pdf = 1/12` is not
folded into the returned spectrum). -/
theorem pbr_sample_spectrum_ne_evaluate_div_pdf :
    ((PBR.sample Pc pbrC3 ⟨0, 1, 0⟩ ⟨0, 1, 0⟩ rngC3).1.spectrum
        ≠ (PBR.evaluate Pc pbrC3 ⟨0, 1, 0⟩ ⟨0, 1, 0⟩
              (PBR.sample Pc pbrC3 ⟨0, 1, 0⟩ ⟨0, 1, 0⟩ rngC3).1.direction
              (PBR.sample Pc pbrC3 ⟨0, 1, 0⟩ ⟨0, 1, 0⟩ rngC3).1.lobe).sdiv
            (PBR.pdf Pc pbrC3 ⟨0, 1, 0⟩ ⟨0, 1, 0⟩
              (PBR.sample Pc pbrC3 ⟨0, 1, 0⟩ ⟨0, 1, 0⟩ rngC3).1.direction
              (PBR.sample Pc pbrC3 ⟨0, 1, 0⟩ ⟨0, 1, 0⟩ rngC3).1.lobe)) := by
  norm_num +decide [reduceCtorEq, PBR.sample, PBR.evaluate, PBR.pdf, PBR.specular_weight_of,
    PBR.evaluate_specular_fast, PBR.pdf_specular_fast, PBR.evaluate_diffuse_fast,
    PBR.pdf_diffuse_fast, fresnel_schlick, fresnel_schlick_scalar, lerp,
    ggx_distribution, geometry_smith_schlick_ggx, geometry_schlick_ggx,
    sample_ggx, reflect, create_cartesian, cos_hemisphere, RngState.gen_r3,
    Pc, sqrtTable, pbrC3, rngC3, EPS, DIELECTRIC_F0, DIELECTRIC_IOR,
    Vec3.normalize, Vec3.length, Vec3.sdiv, Vec3.smul, Vec3.add, Vec3.sub,
    Vec3.neg, Vec3.mul, Vec3.dot, Vec3.cross, Vec3.splat, Vec3.vlerp, Vec3.one]

/-- C3, witness: the amended identity holds at the concrete specular sample
of the counterexample scene (`normal · direction = 7/25 ≥ ε`). -/
theorem pbr_sample_spectrum_is_evaluate_witness :
    (PBR.sample Pc pbrC3 ⟨0, 1, 0⟩ ⟨0, 1, 0⟩ rngC3).1.spectrum
        = PBR.evaluate Pc pbrC3 ⟨0, 1, 0⟩ ⟨0, 1, 0⟩
            (PBR.sample Pc pbrC3 ⟨0, 1, 0⟩ ⟨0, 1, 0⟩ rngC3).1.direction
            (PBR.sample Pc pbrC3 ⟨0, 1, 0⟩ ⟨0, 1, 0⟩ rngC3).1.lobe ∧
      (PBR.sample Pc pbrC3 ⟨0, 1, 0⟩ ⟨0, 1, 0⟩ rngC3).1.pdf
        = PBR.pdf Pc pbrC3 ⟨0, 1, 0⟩ ⟨0, 1, 0⟩
            (PBR.sample Pc pbrC3 ⟨0, 1, 0⟩ ⟨0, 1, 0⟩ rngC3).1.direction
            (PBR.sample Pc pbrC3 ⟨0, 1, 0⟩ ⟨0, 1, 0⟩ rngC3).1.lobe :=
  pbr_sample_spectrum_is_evaluate Pc pbrC3 ⟨0, 1, 0⟩ ⟨0, 1, 0⟩ rngC3 (by
    norm_num +decide [reduceCtorEq, PBR.sample, PBR.specular_weight_of, fresnel_schlick_scalar, lerp,
      sample_ggx, reflect, create_cartesian, cos_hemisphere, RngState.gen_r3,
      Pc, sqrtTable, pbrC3, rngC3, EPS, DIELECTRIC_IOR,
      Vec3.normalize, Vec3.length, Vec3.sdiv, Vec3.smul, Vec3.add, Vec3.sub,
      Vec3.neg, Vec3.dot, Vec3.cross])

/-- `MaterialData` (`shared/src/lib.rs`): per-channel RGBA constants or
atlas rectangles, plus the has-texture flags. -/
structure MaterialData where
  emissive : Vec4
  albedo : Vec4
  roughness : Vec4
  metallic : Vec4
  normals : Vec4
  has_albedo_texture : Bool
  has_metallic_texture : Bool
  has_roughness_texture : Bool
  has_normal_texture : Bool
deriving DecidableEq, Repr

instance : Inhabited MaterialData :=
  ⟨⟨Vec4.zero, Vec4.zero, Vec4.zero, Vec4.zero, Vec4.zero,
    false, false, false, false⟩⟩

/-- `LightPick` (`shared/src/lib.rs`): one alias-table bin with two
outcomes and a split ratio; a negative ratio marks the sentinel. -/
structure LightPick where
  triangle_index_a : ℕ
  triangle_area_a : ℚ
  triangle_pick_pdf_a : ℚ
  triangle_index_b : ℕ
  triangle_area_b : ℚ
  triangle_pick_pdf_b : ℚ
  ratio : ℚ
deriving DecidableEq, Repr

/-- `LightPick::default()` (all-zero). -/
instance : Inhabited LightPick := ⟨⟨0, 0, 0, 0, 0, 0, 0⟩⟩

/-- `LightPick::is_sentinel`: `ratio < 0.0`. -/
def LightPick.is_sentinel (e : LightPick) : Bool := e.ratio < 0

/-- `pick_light` (`kernels/simple/src/light.rs`): select a bin by `r.x`,
then outcome `a` or `b` by `r.y` against the ratio.  The `as usize` cast
truncates (and saturates at zero), modelled by `Int.toNat ∘ floor`. -/
def pick_light (table : List LightPick) (rng : RngState) :
    (ℕ × ℚ × ℚ) × RngState :=
  let (r, rng') := rng.gen_r2
  let entry := table.getD (⌊r.x * table.length⌋).toNat default
  if r.y < entry.ratio then
    ((entry.triangle_index_a, entry.triangle_area_a, entry.triangle_pick_pdf_a), rng')
  else
    ((entry.triangle_index_b, entry.triangle_area_b, entry.triangle_pick_pdf_b), rng')

/-- `pick_triangle_point` (`kernels/simple/src/light.rs`): uniform point via
`(1-√s)·A + √s(1-t)·B + √s·t·C`. -/
def pick_triangle_point (P : MathPrims) (a b c : Vec3) (rng : RngState) :
    Vec3 × RngState :=
  let (r, rng') := rng.gen_r2
  let r1_sqrt := P.sqrt r.x
  (((a.smul (1 - r1_sqrt)).add (b.smul (r1_sqrt * (1 - r.y)))).add
    (c.smul (r1_sqrt * r.y)), rng')

/-- `calculate_light_pdf` (`kernels/simple/src/light.rs`): solid-angle
density `distance² / (area · cosθ)`, zero for a non-positive cosine. -/
def calculate_light_pdf (light_area light_distance : ℚ)
    (light_normal light_direction : Vec3) : ℚ :=
  let cos_theta := light_normal.dot light_direction.neg
  if cos_theta ≤ 0 then 0
  else light_distance ^ 2 / (light_area * cos_theta)

/-- `LightSample` (`kernels/simple/src/light.rs`). -/
structure LightSample where
  area : ℚ
  normal : Vec3
  pick_pdf : ℚ
  emission : Vec3
  triangle_idx : ℕ
  throughput : Vec3
  contribution : Vec3
deriving DecidableEq, Repr

/-- `LightSample::default()` (all-zero). -/
instance : Inhabited LightSample :=
  ⟨⟨0, Vec3.zero, 0, Vec3.zero, 0, Vec3.zero, Vec3.zero⟩⟩

/-- `get_weight` (`kernels/simple/src/light.rs`): the power heuristic. -/
def get_weight (p1 p2 : ℚ) : ℚ := power_heuristic p1 p2

/-- `sample_direct_lighting` (`kernels/simple/src/light.rs`): explicit
direct-light sample with shadow any-hit query and MIS power-heuristic
weighting.  The surface BSDF is the `PBR` the integrator passes. -/
def sample_direct_lighting (P : MathPrims) (indices : List UVec4)
    (per_vertex : List PerVertexData) (materials : List MaterialData)
    (lights : List LightPick) (nodes : List BVHNode) (fuel : ℕ)
    (throughput : Vec3) (surface_bsdf : PBR)
    (surface_point surface_normal ray_direction : Vec3)
    (rng : RngState) : LightSample × RngState :=
  if (lights.getD 0 default).is_sentinel then (default, rng) else
  let (pl, rng1) := pick_light lights rng
  let light_index := pl.1
  let area := pl.2.1
  let pick_pdf := pl.2.2
  let triangle := indices.getD light_index ⟨0, 0, 0, 0⟩
  let vert_a := (per_vertex.getD triangle.x default).vertex
  let vert_b := (per_vertex.getD triangle.y default).vertex
  let vert_c := (per_vertex.getD triangle.z default).vertex
  let norm_a := (per_vertex.getD triangle.x default).normal
  let norm_b := (per_vertex.getD triangle.y default).normal
  let norm_c := (per_vertex.getD triangle.z default).normal
  let normal := ((norm_a.add norm_b).add norm_c).sdiv 3
  let light_material := materials.getD triangle.w default
  let emission := light_material.emissive.xyz
  let (light_point, rng2) := pick_triangle_point P vert_a vert_b vert_c rng1
  let light_direction_unorm := light_point.sub surface_point
  let light_distance := light_direction_unorm.length P
  let light_direction := light_direction_unorm.sdiv light_distance
  let light_trace := intersect_any nodes per_vertex indices
    (surface_point.add (light_direction.smul EPS)) light_direction
    (light_distance - EPS * 2) fuel
  let direct :=
    if light_trace.hit then Vec3.zero else
    let light_pdf := calculate_light_pdf area light_distance normal light_direction
    if 0 < light_pdf then
      let bsdf_attenuation := surface_bsdf.evaluate P ray_direction.neg
        surface_normal light_direction Lobe.DiffuseReflection
      let bsdf_pdf := surface_bsdf.pdf P ray_direction.neg
        surface_normal light_direction Lobe.DiffuseReflection
      if 0 < bsdf_pdf then
        let weight := get_weight light_pdf bsdf_pdf
        (((bsdf_attenuation.mul emission).smul weight).sdiv light_pdf).sdiv pick_pdf
      else Vec3.zero
    else Vec3.zero
  (⟨area, normal, pick_pdf, emission, light_index, throughput,
    throughput.mul direct⟩, rng2)

/-- `calculate_bsdf_mis_contribution` (`kernels/simple/src/light.rs`):
BSDF-side MIS term added when the BSDF-sampled ray reaches the triangle
sampled directly at the previous vertex. -/
def calculate_bsdf_mis_contribution (trace : Trace) (bsdf_sample : BSDFSample)
    (light_sample : LightSample) : Vec3 :=
  if trace.triangle_index ≠ light_sample.triangle_idx then Vec3.zero else
  let light_pdf := calculate_light_pdf light_sample.area trace.len
    light_sample.normal bsdf_sample.direction
  if 0 < light_pdf then
    let weight := get_weight bsdf_sample.pdf light_pdf
    let direct := (((bsdf_sample.spectrum.mul light_sample.emission).smul
      weight).sdiv bsdf_sample.pdf).sdiv light_sample.pick_pdf
    light_sample.throughput.mul direct
  else Vec3.zero

/-- C5 (amended).  When the BSDF-sampled ray strikes the directly sampled
triangle and the recomputed light pdf (using the actual hit distance) is
positive, the BSDF-side MIS contribution is
`throughput · bsdf_spectrum · emission · w_b / (bsdf_pdf · pick_pdf)` with
the power-heuristic weight `w_b = bsdf_pdf² / (bsdf_pdf² + light_pdf'²)`
(the recomputed light pdf enters SQUARED); for a different triangle or a
non-positive light pdf the contribution is zero. -/
theorem bsdf_mis_contribution_formula (t : Trace) (bs : BSDFSample)
    (ls : LightSample) :
    (t.triangle_index ≠ ls.triangle_idx →
        calculate_bsdf_mis_contribution t bs ls = Vec3.zero) ∧
      (t.triangle_index = ls.triangle_idx →
        (calculate_light_pdf ls.area t.len ls.normal bs.direction ≤ 0 →
            calculate_bsdf_mis_contribution t bs ls = Vec3.zero) ∧
          (0 < calculate_light_pdf ls.area t.len ls.normal bs.direction →
            calculate_bsdf_mis_contribution t bs ls =
              (ls.throughput.mul ((bs.spectrum.mul ls.emission).smul
              (bs.pdf ^ 2 / (bs.pdf ^ 2 +
                calculate_light_pdf ls.area t.len ls.normal bs.direction ^ 2)))).sdiv
                (bs.pdf * ls.pick_pdf))) := by
  refine ⟨fun hne => ?_, fun heq => ⟨fun hle => ?_, fun hlt => ?_⟩⟩
  · simp [calculate_bsdf_mis_contribution, hne]
  · rw [calculate_bsdf_mis_contribution, if_neg (by simp [heq]),
      if_neg (not_lt.mpr hle)]
  · rw [calculate_bsdf_mis_contribution, if_neg (by simp [heq]), if_pos hlt]
    simp only [get_weight, power_heuristic, Vec3.mul, Vec3.smul, Vec3.sdiv,
      Vec3.mk.injEq]
    refine ⟨?_, ?_, ?_⟩ <;> ring

/-- Concrete `Trace` for the C5 counterexample: hit distance 2 on the same
triangle that was sampled directly. -/
def tC5 : Trace := ⟨⟨0, 0, 0, 0⟩, 0, 2, true, false⟩

/-- Concrete `BSDFSample` for C5: unit pdf and spectrum, straight-down ray. -/
def bsC5 : BSDFSample := ⟨1, Lobe.DiffuseReflection, ⟨1, 1, 1⟩, ⟨0, -1, 0⟩⟩

/-- Concrete `LightSample` for C5: area 2 upward-facing light, giving a
recomputed light pdf of `2² / (2·1) = 2` at distance 2. -/
def lsC5 : LightSample := ⟨2, ⟨0, 1, 0⟩, 1, ⟨1, 1, 1⟩, 0, ⟨1, 1, 1⟩, Vec3.zero⟩

/-- C5, counterexample to the claim as stated: at the concrete input the
code adds `1/5` per channel (power heuristic `1/(1+2²)`) while the claim's
weight `bsdf_pdf² / (bsdf_pdf² + light_pdf')` — the recomputed light pdf
entering UNSQUARED — would give `1/3` per channel. -/
theorem bsdf_mis_contribution_claim_weight_false :
    calculate_bsdf_mis_contribution tC5 bsC5 lsC5
      ≠ (lsC5.throughput.mul ((bsC5.spectrum.mul lsC5.emission).smul
          (bsC5.pdf ^ 2 / (bsC5.pdf ^ 2 +
            calculate_light_pdf lsC5.area tC5.len lsC5.normal bsC5.direction)))).sdiv
          (bsC5.pdf * lsC5.pick_pdf) := by
  norm_num [calculate_bsdf_mis_contribution, calculate_light_pdf, get_weight,
    power_heuristic, tC5, bsC5, lsC5, Vec3.mul, Vec3.smul, Vec3.sdiv, Vec3.neg,
    Vec3.dot, Vec3.zero]

/-- C5, witness: the amended formula evaluated at the concrete input of the
counterexample (`light_pdf' = 2`, contribution `1/5` per channel). -/
theorem bsdf_mis_contribution_formula_witness :
    calculate_bsdf_mis_contribution tC5 bsC5 lsC5
      = (lsC5.throughput.mul ((bsC5.spectrum.mul lsC5.emission).smul
          (bsC5.pdf ^ 2 / (bsC5.pdf ^ 2 +
            calculate_light_pdf lsC5.area tC5.len lsC5.normal bsC5.direction ^ 2)))).sdiv
          (bsC5.pdf * lsC5.pick_pdf) :=
  ((bsdf_mis_contribution_formula tC5 bsC5 lsC5).2 rfl).2 (by
    norm_num [calculate_light_pdf, tC5, bsC5, lsC5, Vec3.neg, Vec3.dot])

/-- `triangle_area` (`src/light.rs`): Heron's formula. -/
def triangle_area (P : MathPrims) (a b c : Vec3) : ℚ :=
  let side_a := b.sub a
  let side_b := c.sub b
  let side_c := a.sub c
  let s := (side_a.length P + side_b.length P + side_c.length P) / 2
  P.sqrt (s * (s - side_a.length P) * (s - side_b.length P) * (s - side_c.length P))

/-- `compute_emissive_mask` (`src/light.rs`): a triangle is a light iff its
material's emissive RGB is non-zero. -/
def compute_emissive_mask (indices : List UVec4)
    (material_datas : List MaterialData) : List Bool :=
  indices.map (fun tri =>
    decide ((material_datas.getD tri.w default).emissive.xyz ≠ Vec3.zero))

/-- The `TriangleBin` histogram record local to `build_light_pick_table`. -/
structure TriangleBin where
  index_a : ℕ
  probability_a : ℚ
  index_b : ℕ
  probability_b : ℚ
deriving DecidableEq, Repr

instance : Inhabited TriangleBin := ⟨⟨0, 0, 0, 0⟩⟩

/-- The robin-hood redistribution loop of `build_light_pick_table`:
`k` iterations remain, `i` is the loop index, the state is the bin list and
the `most_probable` cursor.  (`most_probable - 1` is the saturating `ℕ`
subtraction; the Rust `usize` decrement below zero would be an overflow
panic and is not reached on well-formed inputs.) -/
def robin_hood (avg : ℚ) : ℕ → ℕ → List TriangleBin × ℕ → List TriangleBin × ℕ
  | 0, _, st => st
  | k + 1, i, (bins, mp) =>
    let needed := avg - (bins.getD i default).probability_a
    if needed ≤ 0 then (bins, mp)
    else
      let bins := bins.set i { bins.getD i default with
        index_b := (bins.getD mp default).index_a, probability_b := needed }
      let bins := bins.set mp { bins.getD mp default with
        probability_a := (bins.getD mp default).probability_a - needed }
      let mp := if (bins.getD mp default).probability_a ≤ avg then mp - 1 else mp
      robin_hood avg k (i + 1) (bins, mp)

/-- `build_light_pick_table` (`src/light.rs`): power-proportional Walker
alias table over the masked triangles; a single `ratio = -1` sentinel entry
when the scene has no emissive triangle. -/
def build_light_pick_table (P : MathPrims) (vertices : List Vec4)
    (indices : List UVec4) (mask : List Bool)
    (material_datas : List MaterialData) : List LightPick :=
  let n := indices.length
  let triangle_areas := (List.range n).map (fun i =>
    if mask.getD i false then
      let tri := indices.getD i ⟨0, 0, 0, 0⟩
      triangle_area P ((vertices.getD tri.x Vec4.zero).xyz)
        ((vertices.getD tri.y Vec4.zero).xyz) ((vertices.getD tri.z Vec4.zero).xyz)
    else 0)
  let triangle_powers := (List.range n).map (fun i =>
    if mask.getD i false then
      let tri := indices.getD i ⟨0, 0, 0, 0⟩
      ((material_datas.getD tri.w default).emissive.xyz.dot Vec3.one) *
        triangle_areas.getD i 0
    else 0)
  let total_power := triangle_powers.foldl (· + ·) 0
  let total_tris := ((List.range n).filter (fun i => mask.getD i false)).length
  if total_tris = 0 then [⟨0, 0, 0, 0, 0, 0, -1⟩] else
  let triangle_probabilities := (List.range n).map (fun i =>
    triangle_powers.getD i 0 / total_power)
  let average_probability :=
    triangle_probabilities.foldl (· + ·) 0 / (total_tris : ℚ)
  let bins := (((List.range n).map (fun i =>
      (⟨i, triangle_probabilities.getD i 0, 0, 0⟩ : TriangleBin))).filter
    (fun x => x.probability_a ≠ 0)).mergeSort
    (fun a b => a.probability_a ≤ b.probability_a)
  let num_bins := bins.length
  let st := robin_hood average_probability num_bins 0 (bins, num_bins - 1)
  st.1.map (fun x =>
    ⟨x.index_a, triangle_areas.getD x.index_a 0,
      triangle_probabilities.getD x.index_a 0,
      x.index_b, triangle_areas.getD x.index_b 0,
      triangle_probabilities.getD x.index_b 0,
      x.probability_a / (x.probability_a + x.probability_b)⟩)

/-- C8.  A scene without emissive triangles produces exactly the one
sentinel entry (`ratio = -1 < 0`), and `sample_direct_lighting` on a table
whose first entry is a sentinel returns the all-zero `LightSample` (whose
`contribution` is the zero vector) without touching the scene. -/
theorem zero_emissive_sentinel_and_no_direct_light (P : MathPrims)
    (vertices : List Vec4) (indices : List UVec4)
    (material_datas : List MaterialData)
    (hne : ∀ tri ∈ indices,
      (material_datas.getD tri.w default).emissive.xyz = Vec3.zero)
    (per_vertex : List PerVertexData) (lights : List LightPick)
    (nodes : List BVHNode) (fuel : ℕ) (throughput : Vec3) (surface_bsdf : PBR)
    (surface_point surface_normal ray_direction : Vec3) (rng : RngState)
    (hsent : (lights.getD 0 default).ratio < 0) :
    build_light_pick_table P vertices indices
        (compute_emissive_mask indices material_datas) material_datas
        = [⟨0, 0, 0, 0, 0, 0, -1⟩] ∧
      (-1 : ℚ) < 0 ∧
      sample_direct_lighting P indices per_vertex material_datas lights nodes
          fuel throughput surface_bsdf surface_point surface_normal
          ray_direction rng
        = (default, rng) ∧
      (default : LightSample).contribution = Vec3.zero := by
  refine ⟨?_, by norm_num, ?_, rfl⟩
  · have hmask : ∀ i : ℕ,
        ((compute_emissive_mask indices material_datas)[i]?).getD false = false := by
      intro i
      rw [compute_emissive_mask, List.getElem?_map]
      cases h : indices[i]? with
      | none => rfl
      | some tri =>
        simp only [Option.map_some, Option.getD_some, decide_eq_false_iff_not,
          ne_eq, not_not]
        have hmem : tri ∈ indices :=
          List.get?_mem (by rw [List.get?_eq_getElem?]; exact h)
        simpa [List.getD, List.get?_eq_getElem?] using hne tri hmem
    have hfilter : (List.range indices.length).filter
        (fun i => (compute_emissive_mask indices material_datas).getD i false)
        = [] := by
      apply List.filter_eq_nil_iff.mpr
      intro i _
      simp [List.getD, hmask i]
    rw [build_light_pick_table]
    simp only [hfilter, List.length_nil, if_pos rfl]
    rw [if_pos trivial]
  · rw [sample_direct_lighting, if_pos (show
      (lights.getD 0 default).is_sentinel = true by
        simp only [LightPick.is_sentinel, decide_eq_true_eq]
        simpa [List.getD] using hsent)]

/-- C8, witness: the empty scene with the one-entry sentinel table. -/
theorem zero_emissive_sentinel_and_no_direct_light_witness :
    build_light_pick_table Pc [] [] (compute_emissive_mask [] []) []
        = [⟨0, 0, 0, 0, 0, 0, -1⟩] ∧
      (-1 : ℚ) < 0 ∧
      sample_direct_lighting Pc [] [] [] [⟨0, 0, 0, 0, 0, 0, -1⟩] [] 0 Vec3.one
          pbrC3 Vec3.zero Vec3.zero Vec3.zero ⟨fun _ => 0, 0⟩
        = (default, ⟨fun _ => 0, 0⟩) ∧
      (default : LightSample).contribution = Vec3.zero :=
  zero_emissive_sentinel_and_no_direct_light Pc [] [] []
    (by intro tri h; exact absurd h (List.not_mem_nil tri))
    [] [⟨0, 0, 0, 0, 0, 0, -1⟩] [] 0 Vec3.one pbrC3 Vec3.zero Vec3.zero
    Vec3.zero ⟨fun _ => 0, 0⟩ (by norm_num [List.getD])

/-- `TracingConfig` (`shared/src/lib.rs`). -/
structure TracingConfig where
  cam_pos : Vec4
  cam_rot : Vec4
  width : ℕ
  height : ℕ
  min_bounces : ℕ
  max_bounces : ℕ
deriving DecidableEq, Repr

/-- Column-major 3×3 matrix (`glam::Mat3`). -/
structure Mat3 where
  x_axis : Vec3
  y_axis : Vec3
  z_axis : Vec3
deriving DecidableEq, Repr

namespace Mat3

def mulVec (m : Mat3) (v : Vec3) : Vec3 :=
  (m.x_axis.smul v.x).add ((m.y_axis.smul v.y).add (m.z_axis.smul v.z))

def mul (a b : Mat3) : Mat3 := ⟨a.mulVec b.x_axis, a.mulVec b.y_axis, a.mulVec b.z_axis⟩

/-- `Mat3::from_rotation_x`. -/
def from_rotation_x (P : MathPrims) (a : ℚ) : Mat3 :=
  ⟨⟨1, 0, 0⟩, ⟨0, P.cos a, P.sin a⟩, ⟨0, -(P.sin a), P.cos a⟩⟩

/-- `Mat3::from_rotation_y`. -/
def from_rotation_y (P : MathPrims) (a : ℚ) : Mat3 :=
  ⟨⟨P.cos a, 0, -(P.sin a)⟩, ⟨0, 1, 0⟩, ⟨P.sin a, 0, P.cos a⟩⟩

/-- `Mat3::from_cols`. -/
def from_cols (c0 c1 c2 : Vec3) : Mat3 := ⟨c0, c1, c2⟩

end Mat3

/-- `get_pbr_bsdf` (`kernels/simple/src/bsdf.rs`): fetch material channels
(constant or atlas texel), clamp roughness to `≥ ε` and metallic to
`≤ 1 - ε`, fixed lobe-weight clamp `[0.1, 0.9]`.  The atlas sampler
(`sample_by_lod` at lod 0) is an abstract function `Vec2 → Vec4`. -/
def get_pbr_bsdf (_config : TracingConfig) (material : MaterialData)
    (uv : Vec2) (atlas : Vec2 → Vec4) : PBR :=
  let albedo :=
    if material.has_albedo_texture then
      (atlas (material.albedo.xy.add (uv.mul material.albedo.zw))).xyz
    else material.albedo.xyz
  let roughness :=
    if material.has_roughness_texture then
      (atlas (material.roughness.xy.add (uv.mul material.roughness.zw))).x
    else material.roughness.x
  let metallic :=
    if material.has_metallic_texture then
      (atlas (material.metallic.xy.add (uv.mul material.metallic.zw))).x
    else material.metallic.x
  let roughness := max roughness EPS
  let metallic := min metallic (1 - EPS)
  ⟨albedo, roughness, metallic, ⟨1/10, 9/10⟩⟩

/-- The read-only inputs of `trace_pixel` (`kernels/simple/src/lib.rs`):
scene buffers, config, atlas sampler, transcendental primitives, traversal
fuel, and the skybox.  Modelled from the spec: `skybox.rs` is not among
the sources and spec §4.8 treats the skybox as an external function of the
ray; it is a parameter `skybox ori dir` (the fixed sun vector is folded
in). -/
structure TraceEnv where
  config : TracingConfig
  indices : List UVec4
  per_vertex : List PerVertexData
  nodes : List BVHNode
  materials : List MaterialData
  lights : List LightPick
  atlas : Vec2 → Vec4
  skybox : Vec3 → Vec3 → Vec3
  fuel : ℕ
  P : MathPrims

/-- The per-bounce mutable state of the `trace_pixel` loop. -/
structure LoopState where
  ori : Vec3
  dir : Vec3
  throughput : Vec3
  radiance : Vec3
  bsdf_sample : BSDFSample
  light_sample : LightSample
  rng : RngState

/-- Outcome of one iteration of the bounce loop: `break` with the final
radiance, or continue with the updated state. -/
inductive BodyResult where
  | done (radiance : Vec3) (rng : RngState)
  | cont (s : LoopState)

/-- The Russian-roulette tail of the loop body
(`kernels/simple/src/lib.rs`, `if bounce > 8 { … }`): after bounce 8, draw
`r1` and terminate when `r1 > max(throughput.rgb)`, otherwise rescale the
throughput by the reciprocal; at bounce 8 and below, pass the throughput
through without drawing. -/
def rouletteStep (bounce : ℕ) (throughput : Vec3) (rng : RngState) :
    Option Vec3 × RngState :=
  if bounce > 8 then
    let prob := throughput.max_element
    let (r1, rng') := rng.gen_r1
    if r1 > prob then (none, rng')
    else (some (throughput.smul (1 / prob)), rng')
  else (some throughput, rng)

/-- One iteration of the `for bounce in 0..16` loop of `trace_pixel`
(`kernels/simple/src/lib.rs`): nearest-hit cast, skybox on miss, emissive
handling (back-face suppression, direct emission, BSDF-side MIS), BSDF
sampling, direct-light sampling on the diffuse lobe, throughput update,
ray advance, and Russian roulette. -/
def loopBody (env : TraceEnv) (bounce : ℕ) (s : LoopState) : BodyResult :=
  let trace := intersect_nearest env.nodes env.per_vertex env.indices
    s.ori s.dir env.fuel
  let hit := s.ori.add (s.dir.smul trace.len)
  if trace.hit = false then
    .done (s.radiance.add (s.throughput.mul (env.skybox s.ori s.dir))) s.rng
  else
    let material := env.materials.getD trace.triangle.w default
    if material.emissive.xyz ≠ Vec3.zero then
      if trace.backface = true then
        .done s.radiance s.rng
      else if bounce = 0 ∨ s.bsdf_sample.lobe ≠ Lobe.DiffuseReflection then
        .done (s.radiance.add
          (mask_nan ((s.throughput.mul material.emissive.xyz).smul 15))) s.rng
      else
        let direct_contribution :=
          calculate_bsdf_mis_contribution trace s.bsdf_sample s.light_sample
        .done (s.radiance.add (mask_nan direct_contribution)) s.rng
    else
      let vertex_data_a := env.per_vertex.getD trace.triangle.x default
      let vertex_data_b := env.per_vertex.getD trace.triangle.y default
      let vertex_data_c := env.per_vertex.getD trace.triangle.z default
      let bary := barycentric hit vertex_data_a.vertex vertex_data_b.vertex
        vertex_data_c.vertex
      let norm := (vertex_data_a.normal.smul bary.x).add
        ((vertex_data_b.normal.smul bary.y).add (vertex_data_c.normal.smul bary.z))
      let uv := (vertex_data_a.uv0.smul bary.x).add
        ((vertex_data_b.uv0.smul bary.y).add (vertex_data_c.uv0.smul bary.z))
      let uv := if uv.clamp ⟨0, 0⟩ ⟨1, 1⟩ ≠ uv then uv.fract else uv
      let norm :=
        if material.has_normal_texture then
          let scaled_uv := material.normals.xy.add (uv.mul material.normals.zw)
          let normal_map := env.atlas scaled_uv
          let nm : Vec3 := ⟨normal_map.x * 2 - 1, normal_map.y * 2 - 1,
            normal_map.z * 2 - 1⟩
          let tangent := (vertex_data_a.tangent.smul bary.x).add
            ((vertex_data_b.tangent.smul bary.y).add
              (vertex_data_c.tangent.smul bary.z))
          let tbn := Mat3.from_cols tangent (tangent.cross norm) norm
          (tbn.mulVec nm).normalize env.P
        else norm
      let bsdf := get_pbr_bsdf env.config material uv env.atlas
      let br := bsdf.sample env.P s.dir.neg norm s.rng
      let bsdf_sample := br.1
      let lsr :=
        if bsdf_sample.lobe = Lobe.DiffuseReflection then
          let lr := sample_direct_lighting env.P env.indices env.per_vertex
            env.materials env.lights env.nodes env.fuel s.throughput bsdf hit
            norm s.dir br.2
          (lr.1, s.radiance.add (mask_nan lr.1.contribution), lr.2)
        else (s.light_sample, s.radiance, br.2)
      let throughput := s.throughput.mul (bsdf_sample.spectrum.sdiv bsdf_sample.pdf)
      let dir := bsdf_sample.direction
      let ori := hit.add (dir.smul EPS)
      let rl := rouletteStep bounce throughput lsr.2.2
      match rl.1 with
      | none => .done lsr.2.1 rl.2
      | some thr => .cont ⟨ori, dir, thr, lsr.2.1, bsdf_sample, lsr.1, rl.2⟩

/-- The `for bounce in 0..16` loop: `k` iterations remain at index
`bounce`; on exhaustion the accumulated radiance is returned. -/
def runLoop (env : TraceEnv) : ℕ → ℕ → LoopState → Vec3 × RngState
  | 0, _, s => (s.radiance, s.rng)
  | k + 1, bounce, s =>
    match loopBody env bounce s with
    | .done r rng => (r, rng)
    | .cont s' => runLoop env k (bounce + 1) s'

/-- The primary camera ray of `trace_pixel`: jittered NDC coordinates,
aspect correction, Euler rotation of the normalized view vector. -/
def primary_ray (env : TraceEnv) (id : ℕ × ℕ) (rng0 : RngState) :
    (Vec3 × Vec3) × RngState :=
  let (jitter, rng1) := rng0.gen_r2
  let suv : Vec2 := ⟨(id.1 : ℚ) + jitter.x, (id.2 : ℚ) + jitter.y⟩
  let uv : Vec2 := ⟨(suv.x / env.config.width) * 2 - 1,
    (1 - suv.y / env.config.height) * 2 - 1⟩
  let uv : Vec2 := ⟨uv.x, uv.y * ((env.config.height : ℚ) / env.config.width)⟩
  let ori := env.config.cam_pos.xyz
  let euler_mat := (Mat3.from_rotation_y env.P env.config.cam_rot.y).mul
    (Mat3.from_rotation_x env.P env.config.cam_rot.x)
  let dir := euler_mat.mulVec (Vec3.normalize env.P ⟨uv.x, uv.y, 1⟩)
  ((ori, dir), rng1)

/-- `trace_pixel` (`kernels/simple/src/lib.rs`): primary ray, 16-bounce
loop starting from unit throughput and zero radiance, returning
`radiance.extend(1.0)` — with NO mask applied to the returned value —
and the RNG state to persist. -/
def trace_pixel (env : TraceEnv) (id : ℕ × ℕ) (rng0 : RngState) :
    Vec4 × RngState :=
  let pr := primary_ray env id rng0
  let st : LoopState := ⟨pr.1.1, pr.1.2, Vec3.one, Vec3.zero, default, default,
    pr.2⟩
  let res := runLoop env 16 0 st
  (⟨res.1.x, res.1.y, res.1.z, 1⟩, res.2)

/-- C6.  Russian roulette is applied only after bounce 8: at bounce indices
8 and below the roulette step never terminates the path and leaves the
throughput (and RNG) untouched; for every bounce index greater than 8 the
path continues iff the drawn `r1` does not exceed `q = max(throughput.rgb)`,
and on continuation the throughput is rescaled by `1/q`. -/
theorem roulette_only_after_bounce_8 (bounce : ℕ) (throughput : Vec3)
    (rng : RngState) :
    (bounce ≤ 8 → rouletteStep bounce throughput rng = (some throughput, rng)) ∧
      (8 < bounce →
        ((rouletteStep bounce throughput rng).1 ≠ none ↔
            rng.gen_r1.1 ≤ throughput.max_element) ∧
          (rng.gen_r1.1 ≤ throughput.max_element →
            rouletteStep bounce throughput rng
              = (some (throughput.smul (1 / throughput.max_element)),
                  rng.gen_r1.2)) ∧
          (throughput.max_element < rng.gen_r1.1 →
            rouletteStep bounce throughput rng = (none, rng.gen_r1.2))) := by
  constructor
  · intro h
    rw [rouletteStep, if_neg (by omega)]
  · intro h
    rw [rouletteStep, if_pos h]
    rcases hg : rng.gen_r1 with ⟨r1, rng'⟩
    simp only [hg]
    by_cases hr : r1 > throughput.max_element
    · rw [if_pos hr]
      exact ⟨iff_of_false (by simp) (not_le.mpr hr),
        fun hle => absurd hr (not_lt.mpr hle), fun _ => rfl⟩
    · rw [if_neg hr]
      exact ⟨iff_of_true (by simp) (not_lt.mp hr), fun _ => rfl,
        fun hlt => absurd hlt hr⟩

/-- C6, witness: no roulette at bounce 5; continuation with rescale at
bounce 9 when `r1 = 1/2 ≤ q = 1`. -/
theorem roulette_only_after_bounce_8_witness :
    rouletteStep 5 ⟨1, 1, 1⟩ ⟨fun _ => 1/2, 0⟩
        = (some ⟨1, 1, 1⟩, ⟨fun _ => 1/2, 0⟩) ∧
      rouletteStep 9 ⟨1, 1, 1⟩ ⟨fun _ => 1/2, 0⟩
        = (some (Vec3.smul (1 / Vec3.max_element ⟨1, 1, 1⟩) ⟨1, 1, 1⟩),
            (RngState.gen_r1 ⟨fun _ => 1/2, 0⟩).2) :=
  ⟨(roulette_only_after_bounce_8 5 ⟨1, 1, 1⟩ ⟨fun _ => 1/2, 0⟩).1 (by norm_num),
    ((roulette_only_after_bounce_8 9 ⟨1, 1, 1⟩ ⟨fun _ => 1/2, 0⟩).2
        (by norm_num)).2.1
      (by norm_num [RngState.gen_r1, Vec3.max_element])⟩

/-- C7.  When the nearest hit of a bounce is emissive and struck on the
back face, the loop body terminates the path at that bounce with the
radiance accumulator unchanged. -/
theorem emissive_backface_terminates_unchanged (env : TraceEnv) (bounce : ℕ)
    (s : LoopState)
    (h1 : (intersect_nearest env.nodes env.per_vertex env.indices s.ori s.dir
        env.fuel).hit = true)
    (h2 : (env.materials.getD (intersect_nearest env.nodes env.per_vertex
        env.indices s.ori s.dir env.fuel).triangle.w default).emissive.xyz
        ≠ Vec3.zero)
    (h3 : (intersect_nearest env.nodes env.per_vertex env.indices s.ori s.dir
        env.fuel).backface = true) :
    loopBody env bounce s = .done s.radiance s.rng := by
  rw [loopBody]
  simp only [h1, h2, h3, Bool.true_eq_false, if_false, ne_eq,
    not_false_eq_true, if_true, if_pos]

/-- Vertex buffer of the back-face witness scene: one triangle in the
`z = 1` plane wound so the ray `(1,1,0) → +z` strikes its back face. -/
def vbC7 : List PerVertexData :=
  [⟨⟨0, 0, 1⟩, Vec3.zero, Vec3.zero, ⟨0, 0⟩⟩,
   ⟨⟨4, 0, 1⟩, Vec3.zero, Vec3.zero, ⟨0, 0⟩⟩,
   ⟨⟨0, 4, 1⟩, Vec3.zero, Vec3.zero, ⟨0, 0⟩⟩]

/-- One emissive material (`emissive = (1,1,1,0)`). -/
def matC7 : MaterialData :=
  ⟨⟨1, 1, 1, 0⟩, Vec4.zero, Vec4.zero, Vec4.zero, Vec4.zero,
    false, false, false, false⟩

/-- Environment of the back-face witness scene: a single-leaf BVH over the
one emissive triangle. -/
def envC7 : TraceEnv :=
  ⟨⟨Vec4.zero, Vec4.zero, 1, 1, 3, 4⟩, [⟨0, 1, 2, 0⟩], vbC7,
    [⟨⟨0, 0, 1⟩, ⟨4, 4, 1⟩, 1, 0⟩], [matC7], [⟨0, 0, 0, 0, 0, 0, -1⟩],
    fun _ => Vec4.zero, fun _ _ => Vec3.zero, 2, Pc⟩

/-- Loop state of the back-face witness: camera ray `(1,1,0) → +z`,
radiance accumulator `(5,6,7)`. -/
def sC7 : LoopState :=
  ⟨⟨1, 1, 0⟩, ⟨0, 0, 1⟩, Vec3.one, ⟨5, 6, 7⟩, default, default,
    ⟨fun _ => 0, 0⟩⟩

/-- C7, witness: the loop body terminates on the emissive back-face hit and
returns the radiance accumulator `(5,6,7)` unchanged. -/
theorem emissive_backface_terminates_unchanged_witness :
    loopBody envC7 0 sC7 = .done (⟨5, 6, 7⟩ : Vec3) sC7.rng :=
  emissive_backface_terminates_unchanged envC7 0 sC7
    (by norm_num [envC7, vbC7, sC7, intersect_nearest, intersect_front_to_back,
      leafLoop, muller_trumbore, Trace.miss, BVHNode.is_leaf, Vec3.sub,
      Vec3.cross, Vec3.dot, EPS, DET_EPS, MISS_LEN])
    (by norm_num [envC7, vbC7, matC7, sC7, intersect_nearest,
      intersect_front_to_back, leafLoop, muller_trumbore, Trace.miss,
      BVHNode.is_leaf, Vec3.sub, Vec3.cross, Vec3.dot, Vec3.zero, Vec4.xyz,
      EPS, DET_EPS, MISS_LEN, List.getD])
    (by norm_num [envC7, vbC7, sC7, intersect_nearest, intersect_front_to_back,
      leafLoop, muller_trumbore, Trace.miss, BVHNode.is_leaf, Vec3.sub,
      Vec3.cross, Vec3.dot, EPS, DET_EPS, MISS_LEN])

/-- C4 (amended).  When the primary ray misses the scene, `trace_pixel`
returns the raw skybox product with NO `mask_nan` applied: the returned
radiance equals `throughput · skybox(ori, dir)` exactly, even when that
value is non-finite (in-model: of magnitude at least `f32::MAX`).  The
three hit-side contribution sites do pass through `mask_nan`
(see `loopBody`), but the miss-side skybox term and the final return do
not. -/
theorem trace_pixel_skybox_unmasked_on_miss (env : TraceEnv) (id : ℕ × ℕ)
    (rng0 : RngState)
    (hmiss : (intersect_nearest env.nodes env.per_vertex env.indices
        (primary_ray env id rng0).1.1 (primary_ray env id rng0).1.2
        env.fuel).hit = false) :
    (trace_pixel env id rng0).1
      = ⟨(env.skybox (primary_ray env id rng0).1.1 (primary_ray env id rng0).1.2).x,
          (env.skybox (primary_ray env id rng0).1.1 (primary_ray env id rng0).1.2).y,
          (env.skybox (primary_ray env id rng0).1.1 (primary_ray env id rng0).1.2).z,
          1⟩ := by
  rw [trace_pixel]
  simp only [runLoop, loopBody, hmiss, if_true, if_pos]
  simp [Vec3.add, Vec3.mul, Vec3.zero, Vec3.one]

/-- All-zero RNG stream. -/
def rngZ : RngState := ⟨fun _ => 0, 0⟩

/-- Environment whose external skybox returns `2·f32::MAX` per channel —
a non-finite value in the model — over a scene whose only triangle is
degenerate, so every ray misses. -/
def envC4 : TraceEnv :=
  ⟨⟨Vec4.zero, Vec4.zero, 1, 1, 3, 4⟩, [⟨0, 0, 0, 0⟩], [default],
    [⟨⟨-1, -1, -1⟩, ⟨1, 1, 1⟩, 1, 0⟩], [default], [⟨0, 0, 0, 0, 0, 0, -1⟩],
    fun _ => Vec4.zero, fun _ _ => Vec3.splat (2 * F32MAX), 2, Pc⟩

/-- C4, counterexample to the claim as stated: the skybox miss contribution
is accumulated without `mask_nan` and the returned radiance is not masked,
so a non-finite skybox value (here `2·f32::MAX`) yields a non-finite pixel
channel — the x-channel of the returned radiance has magnitude at least
`f32::MAX`. -/
theorem trace_pixel_nonfinite_channel :
    ¬ |(trace_pixel envC4 (0, 0) rngZ).1.x| < F32MAX := by
  have heval : (trace_pixel envC4 (0, 0) rngZ).1.x = 2 * F32MAX := by
    norm_num [trace_pixel, primary_ray, runLoop, loopBody, intersect_nearest,
      intersect_front_to_back, leafLoop, muller_trumbore, Trace.miss,
      BVHNode.is_leaf, envC4, rngZ, Pc, sqrtTable, RngState.gen_r2,
      Mat3.from_rotation_x, Mat3.from_rotation_y, Mat3.mul, Mat3.mulVec,
      Vec3.normalize, Vec3.length, Vec3.sdiv, Vec3.smul, Vec3.add, Vec3.sub,
      Vec3.mul, Vec3.dot, Vec3.cross, Vec3.zero, Vec3.one, Vec3.splat,
      Vec4.xyz, EPS, DET_EPS, MISS_LEN, List.getD]
  rw [heval]
  norm_num [F32MAX, abs_of_pos]

/-- C4, witness for the amended statement: on the degenerate-scene miss the
returned pixel equals the raw skybox product `(2·f32::MAX, …, 1)`. -/
theorem trace_pixel_skybox_unmasked_on_miss_witness :
    (trace_pixel envC4 (0, 0) rngZ).1
      = ⟨(envC4.skybox (primary_ray envC4 (0, 0) rngZ).1.1
            (primary_ray envC4 (0, 0) rngZ).1.2).x,
          (envC4.skybox (primary_ray envC4 (0, 0) rngZ).1.1
            (primary_ray envC4 (0, 0) rngZ).1.2).y,
          (envC4.skybox (primary_ray envC4 (0, 0) rngZ).1.1
            (primary_ray envC4 (0, 0) rngZ).1.2).z,
          1⟩ :=
  trace_pixel_skybox_unmasked_on_miss envC4 (0, 0) rngZ (by
    norm_num [primary_ray, intersect_nearest, intersect_front_to_back,
      leafLoop, muller_trumbore, Trace.miss, BVHNode.is_leaf, envC4, rngZ, Pc,
      sqrtTable, RngState.gen_r2, Mat3.from_rotation_x, Mat3.from_rotation_y,
      Mat3.mul, Mat3.mulVec, Vec3.normalize, Vec3.length, Vec3.sdiv,
      Vec3.smul, Vec3.add, Vec3.sub, Vec3.dot, Vec3.cross, Vec3.zero,
      Vec4.xyz, EPS, DET_EPS, MISS_LEN, List.getD])

/-- The Möller–Trumbore result of triangle `i` under the buffers' indexing
convention — the sub-computation both the linear scan and the leaf loop
perform for a triangle index. -/
def triMT (vb : List PerVertexData) (ib : List UVec4) (ro rd : Vec3)
    (i : ℕ) : MTResult :=
  let tri := ib.getD i ⟨0, 0, 0, 0⟩
  muller_trumbore ro rd (vb.getD tri.x default).vertex
    (vb.getD tri.y default).vertex (vb.getD tri.z default).vertex

/-- The accepted hit distance of triangle `i`: `some t` when the triangle
reports a hit beyond the self-intersection guard `ε`, `none` otherwise. -/
def validT (vb : List PerVertexData) (ib : List UVec4) (ro rd : Vec3)
    (i : ℕ) : Option ℚ :=
  let m := triMT vb ib ro rd i
  if m.hit = true ∧ EPS < m.t then some m.t else none

/-- Interface invariant of a running `Trace`: a non-hit is exactly
`Trace::miss()`, and a hit carries the data of some accepted triangle of
the first `N` index-buffer entries whose distance equals `len`. -/
def SoundTrace (vb : List PerVertexData) (ib : List UVec4) (ro rd : Vec3)
    (N : ℕ) (r : Trace) : Prop :=
  (r.hit = false → r = Trace.miss) ∧
  (r.hit = true → r.len < MISS_LEN ∧ EPS < r.len ∧
    ∃ i < N, (triMT vb ib ro rd i).hit = true ∧ (triMT vb ib ro rd i).t = r.len ∧
      r.triangle = ib.getD i ⟨0, 0, 0, 0⟩ ∧ r.triangle_index = i ∧
      r.backface = (triMT vb ib ro rd i).backface)

theorem soundTrace_miss (vb : List PerVertexData) (ib : List UVec4)
    (ro rd : Vec3) (N : ℕ) : SoundTrace vb ib ro rd N Trace.miss :=
  ⟨fun _ => rfl, fun h => by simp [Trace.miss] at h⟩

theorem soundTrace_len_le (vb : List PerVertexData) (ib : List UVec4)
    (ro rd : Vec3) (N : ℕ) (r : Trace) (h : SoundTrace vb ib ro rd N r) :
    r.len ≤ MISS_LEN := by
  cases hr : r.hit with
  | false => rw [h.1 hr]; exact le_refl _
  | true => exact le_of_lt (h.2 hr).1

/-- `traceUpdate` in terms of `triMT`. -/
theorem traceUpdate_eq (vb : List PerVertexData) (ib : List UVec4)
    (ro rd : Vec3) (r : Trace) (i : ℕ) :
    traceUpdate vb ib ro rd r i =
      if (triMT vb ib ro rd i).hit = true ∧ EPS < (triMT vb ib ro rd i).t ∧
          (triMT vb ib ro rd i).t < r.len then
        ⟨ib.getD i ⟨0, 0, 0, 0⟩, i, min r.len (triMT vb ib ro rd i).t, true,
          (triMT vb ib ro rd i).backface⟩
      else r := rfl

/-- One step of the triangle loop preserves the interface invariant. -/
theorem traceUpdate_sound (vb : List PerVertexData) (ib : List UVec4)
    (ro rd : Vec3) (N : ℕ) (r : Trace) (i : ℕ) (hi : i < N)
    (h : SoundTrace vb ib ro rd N r) :
    SoundTrace vb ib ro rd N (traceUpdate vb ib ro rd r i) := by
  rw [traceUpdate_eq]
  split
  · rename_i hc
    obtain ⟨hhit, heps, hlt⟩ := hc
    have hlen : (triMT vb ib ro rd i).t < MISS_LEN :=
      lt_of_lt_of_le hlt (soundTrace_len_le vb ib ro rd N r h)
    have hm : min r.len (triMT vb ib ro rd i).t = (triMT vb ib ro rd i).t :=
      min_eq_right (le_of_lt hlt)
    refine ⟨fun hf => by simp at hf, fun _ => ?_⟩
    rw [hm]
    exact ⟨hlen, heps, i, hi, hhit, rfl, rfl, rfl, rfl⟩
  · exact h

theorem traceUpdate_len_le (vb : List PerVertexData) (ib : List UVec4)
    (ro rd : Vec3) (r : Trace) (i : ℕ) :
    (traceUpdate vb ib ro rd r i).len ≤ r.len := by
  rw [traceUpdate_eq]
  split
  · exact min_le_left _ _
  · exact le_refl _

/-- One unrolling of the leaf triangle loop. -/
theorem leafLoop_step (NEAREST : Bool) (vb : List PerVertexData)
    (ib : List UVec4) (ro rd : Vec3) (max_t : ℚ) (idx k : ℕ) (r : Trace) :
    leafLoop NEAREST vb ib ro rd max_t idx (k + 1) r =
      if (triMT vb ib ro rd idx).hit = true ∧ EPS < (triMT vb ib ro rd idx).t ∧
          (triMT vb ib ro rd idx).t < r.len ∧
          (NEAREST = true ∨ (triMT vb ib ro rd idx).t ≤ max_t) then
        (if NEAREST then
          leafLoop NEAREST vb ib ro rd max_t (idx + 1) k
            ⟨ib.getD idx ⟨0, 0, 0, 0⟩, idx, min r.len (triMT vb ib ro rd idx).t,
              true, (triMT vb ib ro rd idx).backface⟩
        else (⟨ib.getD idx ⟨0, 0, 0, 0⟩, idx, min r.len (triMT vb ib ro rd idx).t,
          true, (triMT vb ib ro rd idx).backface⟩, true))
      else leafLoop NEAREST vb ib ro rd max_t (idx + 1) k r := rfl

/-- Every leaf span within bounds: each node read as a leaf covers indices
inside the index buffer.  (Out-of-range node reads default to an interior
node, so the condition is about the actual node list.) -/
def LeafSpansBounded (nodes : List BVHNode) (N : ℕ) : Prop :=
  ∀ n : ℕ, (nodes.getD n default).triangle_count > 0 →
    (nodes.getD n default).ptr + (nodes.getD n default).triangle_count ≤ N

theorem leafSpansBounded_of_lt (nodes : List BVHNode) (N : ℕ)
    (h : ∀ n < nodes.length, (nodes.getD n default).triangle_count > 0 →
      (nodes.getD n default).ptr + (nodes.getD n default).triangle_count ≤ N) :
    LeafSpansBounded nodes N := by
  intro n hleaf
  rcases lt_or_le n nodes.length with hn | hn
  · exact h n hn hleaf
  · rw [List.getD_eq_default _ _ hn] at hleaf
    simp [default] at hleaf

/-- The leaf loop preserves the interface invariant in both modes. -/
theorem leafLoop_sound (NEAREST : Bool) (vb : List PerVertexData)
    (ib : List UVec4) (ro rd : Vec3) (max_t : ℚ) (N : ℕ) :
    ∀ k idx r, idx + k ≤ N → SoundTrace vb ib ro rd N r →
      SoundTrace vb ib ro rd N (leafLoop NEAREST vb ib ro rd max_t idx k r).1 := by
  intro k
  induction k with
  | zero => intro idx r _ hr; exact hr
  | succ k ih =>
    intro idx r hspan hr
    rw [leafLoop_step]
    by_cases hc : (triMT vb ib ro rd idx).hit = true ∧
        EPS < (triMT vb ib ro rd idx).t ∧ (triMT vb ib ro rd idx).t < r.len ∧
        (NEAREST = true ∨ (triMT vb ib ro rd idx).t ≤ max_t)
    · rw [if_pos hc]
      obtain ⟨hhit, heps, hlt, _⟩ := hc
      have hlen : (triMT vb ib ro rd idx).t < MISS_LEN :=
        lt_of_lt_of_le hlt (soundTrace_len_le vb ib ro rd N r hr)
      have hm : min r.len (triMT vb ib ro rd idx).t = (triMT vb ib ro rd idx).t :=
        min_eq_right (le_of_lt hlt)
      have hr' : SoundTrace vb ib ro rd N
          ⟨ib.getD idx ⟨0, 0, 0, 0⟩, idx, min r.len (triMT vb ib ro rd idx).t,
            true, (triMT vb ib ro rd idx).backface⟩ := by
        refine ⟨fun hf => by simp at hf, fun _ => ?_⟩
        rw [hm]
        exact ⟨hlen, heps, idx, by omega, hhit, rfl, rfl, rfl, rfl⟩
      cases NEAREST with
      | true => simpa using ih (idx + 1) _ (by omega) hr'
      | false => simpa using hr'
    · rw [if_neg hc]
      exact ih (idx + 1) r (by omega) hr

/-- The traversal preserves the interface invariant in both modes, for every
fuel and stack. -/
theorem traverse_sound (NEAREST : Bool) (nodes : List BVHNode)
    (vb : List PerVertexData) (ib : List UVec4) (ro rd : Vec3) (max_t : ℚ)
    (N : ℕ) (hspan : LeafSpansBounded nodes N) :
    ∀ fuel stack r, SoundTrace vb ib ro rd N r →
      SoundTrace vb ib ro rd N
        (intersect_front_to_back NEAREST nodes vb ib ro rd max_t fuel stack r) := by
  intro fuel
  induction fuel with
  | zero => intro stack r hr; exact hr
  | succ fuel ih =>
    intro stack r hr
    cases stack with
    | nil => exact hr
    | cons n stack =>
      rw [intersect_front_to_back]
      split
      · rename_i hleaf
        have hs := leafLoop_sound NEAREST vb ib ro rd max_t N
          (nodes.getD n default).triangle_count (nodes.getD n default).ptr r
          (hspan n (by simpa [BVHNode.is_leaf] using hleaf)) hr
        split
        · rename_i r' early heq
          rw [heq] at hs
          split
          · exact hs
          · exact ih stack r' hs
      · dsimp only
        split <;> split <;> exact ih _ r hr

/-- C10.  Both traversal modes return only interface-invariant `Trace`
values: a non-hit result is exactly `Trace::miss()` — whose fields are
`len = 1e6`, triangle `(0,0,0,0)`, index `0`, back-face `false` — and a hit
result has `0.001 < len < 1e6` with `len` the Möller–Trumbore distance of
an accepted in-bounds triangle whose record, index and back-face flag are
returned. -/
theorem bvh_traversal_interface_invariant (nodes : List BVHNode)
    (vb : List PerVertexData) (ib : List UVec4) (ro rd : Vec3) (max_t : ℚ)
    (fuel : ℕ)
    (hspan : ∀ n < nodes.length, (nodes.getD n default).triangle_count > 0 →
      (nodes.getD n default).ptr + (nodes.getD n default).triangle_count
        ≤ ib.length) :
    SoundTrace vb ib ro rd ib.length (intersect_nearest nodes vb ib ro rd fuel) ∧
      SoundTrace vb ib ro rd ib.length
        (intersect_any nodes vb ib ro rd max_t fuel) ∧
      Trace.miss = ⟨⟨0, 0, 0, 0⟩, 0, 1000000, false, false⟩ :=
  ⟨traverse_sound true nodes vb ib ro rd 0 ib.length
      (leafSpansBounded_of_lt nodes ib.length hspan) fuel [0] Trace.miss
      (soundTrace_miss vb ib ro rd ib.length),
    traverse_sound false nodes vb ib ro rd max_t ib.length
      (leafSpansBounded_of_lt nodes ib.length hspan) fuel [0] Trace.miss
      (soundTrace_miss vb ib ro rd ib.length),
    rfl⟩

/-- C10, witness: the invariant at the one-triangle scene of the C7
witness. -/
theorem bvh_traversal_interface_invariant_witness :
    SoundTrace vbC7 [⟨0, 1, 2, 0⟩] ⟨1, 1, 0⟩ ⟨0, 0, 1⟩ 1
        (intersect_nearest [⟨⟨0, 0, 1⟩, ⟨4, 4, 1⟩, 1, 0⟩] vbC7 [⟨0, 1, 2, 0⟩]
          ⟨1, 1, 0⟩ ⟨0, 0, 1⟩ 2) ∧
      SoundTrace vbC7 [⟨0, 1, 2, 0⟩] ⟨1, 1, 0⟩ ⟨0, 0, 1⟩ 1
        (intersect_any [⟨⟨0, 0, 1⟩, ⟨4, 4, 1⟩, 1, 0⟩] vbC7 [⟨0, 1, 2, 0⟩]
          ⟨1, 1, 0⟩ ⟨0, 0, 1⟩ 5 2) ∧
      Trace.miss = ⟨⟨0, 0, 0, 0⟩, 0, 1000000, false, false⟩ := by
  have h := bvh_traversal_interface_invariant [⟨⟨0, 0, 1⟩, ⟨4, 4, 1⟩, 1, 0⟩]
    vbC7 [⟨0, 1, 2, 0⟩] ⟨1, 1, 0⟩ ⟨0, 0, 1⟩ 5 2 (by
      intro n hn
      have hn0 : n = 0 := by simpa using hn
      subst hn0
      norm_num [List.getD])
  simpa using h

/-- In any-hit mode, the leaf loop accepts only distances in
`(ε, max_t]`. -/
theorem leafLoop_any_bound (vb : List PerVertexData) (ib : List UVec4)
    (ro rd : Vec3) (max_t : ℚ) :
    ∀ k idx r, (r.hit = true → EPS < r.len ∧ r.len ≤ max_t) →
      ((leafLoop false vb ib ro rd max_t idx k r).1.hit = true →
        EPS < (leafLoop false vb ib ro rd max_t idx k r).1.len ∧
          (leafLoop false vb ib ro rd max_t idx k r).1.len ≤ max_t) := by
  intro k
  induction k with
  | zero => intro idx r hr; exact hr
  | succ k ih =>
    intro idx r hr
    rw [leafLoop_step]
    by_cases hc : (triMT vb ib ro rd idx).hit = true ∧
        EPS < (triMT vb ib ro rd idx).t ∧ (triMT vb ib ro rd idx).t < r.len ∧
        ((false : Bool) = true ∨ (triMT vb ib ro rd idx).t ≤ max_t)
    · rw [if_pos hc]
      obtain ⟨_, heps, hlt, hor⟩ := hc
      have hmax : (triMT vb ib ro rd idx).t ≤ max_t := by
        rcases hor with h | h
        · exact absurd h (by simp)
        · exact h
      intro _
      have hm : min r.len (triMT vb ib ro rd idx).t = (triMT vb ib ro rd idx).t :=
        min_eq_right (le_of_lt hlt)
      simp only [hm]
      exact ⟨heps, hmax⟩
    · rw [if_neg hc]
      exact ih (idx + 1) r hr

/-- In any-hit mode, the traversal returns only hits in `(ε, max_t]`. -/
theorem traverse_any_bound (nodes : List BVHNode) (vb : List PerVertexData)
    (ib : List UVec4) (ro rd : Vec3) (max_t : ℚ) :
    ∀ fuel stack r, (r.hit = true → EPS < r.len ∧ r.len ≤ max_t) →
      ((intersect_front_to_back false nodes vb ib ro rd max_t fuel stack r).hit
          = true →
        EPS < (intersect_front_to_back false nodes vb ib ro rd max_t fuel stack
            r).len ∧
          (intersect_front_to_back false nodes vb ib ro rd max_t fuel stack
            r).len ≤ max_t) := by
  intro fuel
  induction fuel with
  | zero => intro stack r hr; exact hr
  | succ fuel ih =>
    intro stack r hr
    cases stack with
    | nil => exact hr
    | cons n stack =>
      rw [intersect_front_to_back]
      split
      · have hb := leafLoop_any_bound vb ib ro rd max_t
          (nodes.getD n default).triangle_count (nodes.getD n default).ptr r hr
        split
        · rename_i r' early heq
          rw [heq] at hb
          split
          · exact hb
          · exact ih stack r' hb
      · dsimp only
        split <;> split <;> exact ih _ r hr

/-- Specification-side acceptance test of the any-hit mode applied to a
fresh (miss) running trace: a hit beyond `ε`, below the miss length and
within `max_t`. -/
def acceptAny (vb : List PerVertexData) (ib : List UVec4) (ro rd : Vec3)
    (max_t : ℚ) (i : ℕ) : Bool :=
  decide ((triMT vb ib ro rd i).hit = true ∧ EPS < (triMT vb ib ro rd i).t ∧
    (triMT vb ib ro rd i).t < MISS_LEN ∧ (triMT vb ib ro rd i).t ≤ max_t)

/-- The trace the any-hit mode records for accepted triangle `i`. -/
def traceOfAny (vb : List PerVertexData) (ib : List UVec4) (ro rd : Vec3)
    (i : ℕ) : Trace :=
  ⟨ib.getD i ⟨0, 0, 0, 0⟩, i, min MISS_LEN (triMT vb ib ro rd i).t, true,
    (triMT vb ib ro rd i).backface⟩

/-- Specification-side visit order of the any-hit traversal before any
acceptance: the triangle indices tested, in order, when the running best
stays at the miss length `1e6`. -/
def visitOrder (nodes : List BVHNode) (ro rd : Vec3) :
    ℕ → List ℕ → List ℕ
  | 0, _ => []
  | _ + 1, [] => []
  | fuel + 1, n :: stack =>
    let node := nodes.getD n default
    if node.is_leaf then
      (List.range node.triangle_count).map (node.ptr + ·) ++
        visitOrder nodes ro rd fuel stack
    else
      let lchild := nodes.getD node.ptr default
      let rchild := nodes.getD (node.ptr + 1) default
      let ldist := intersect_aabb lchild.aabb_min lchild.aabb_max ro rd MISS_LEN
      let rdist := intersect_aabb rchild.aabb_min rchild.aabb_max ro rd MISS_LEN
      let swapped := F32.flt rdist ldist
      let min_index := if swapped then node.ptr + 1 else node.ptr
      let max_index := if swapped then node.ptr else node.ptr + 1
      let min_dist := if swapped then rdist else ldist
      let max_dist := if swapped then ldist else rdist
      if F32.feq min_dist.fabs (F32.val F32MAX) then
        visitOrder nodes ro rd fuel stack
      else
        let stack' := if F32.flt max_dist.fabs (F32.val F32MAX)
          then max_index :: stack else stack
        visitOrder nodes ro rd fuel (min_index :: stack')

/-- The any-hit leaf loop started from a miss returns the first accepted
triangle of the span, or passes the miss through. -/
theorem leafLoop_any_first (vb : List PerVertexData) (ib : List UVec4)
    (ro rd : Vec3) (max_t : ℚ) :
    ∀ k idx,
      leafLoop false vb ib ro rd max_t idx k Trace.miss
        = match ((List.range k).map (idx + ·)).find?
            (acceptAny vb ib ro rd max_t) with
          | some i => (traceOfAny vb ib ro rd i, true)
          | none => (Trace.miss, false) := by
  intro k
  induction k with
  | zero => intro idx; rfl
  | succ k ih =>
    intro idx
    rw [leafLoop_step, List.range_succ_eq_map, List.map_cons]
    have hmap : ((List.range k).map Nat.succ).map (idx + ·)
        = (List.range k).map ((idx + 1) + ·) := by
      rw [List.map_map]
      exact List.map_congr_left (fun j _ => by simp [Function.comp]; omega)
    rw [hmap, List.find?_cons]
    by_cases hc : (triMT vb ib ro rd idx).hit = true ∧
        EPS < (triMT vb ib ro rd idx).t ∧
        (triMT vb ib ro rd idx).t < Trace.miss.len ∧
        ((false : Bool) = true ∨ (triMT vb ib ro rd idx).t ≤ max_t)
    · rw [if_pos hc]
      have hacc : acceptAny vb ib ro rd max_t (idx + 0) = true := by
        obtain ⟨h1, h2, h3, h4⟩ := hc
        have h4' : (triMT vb ib ro rd idx).t ≤ max_t := by
          rcases h4 with h | h
          · exact absurd h (by simp)
          · exact h
        simp only [Nat.add_zero, acceptAny, decide_eq_true_eq]
        exact ⟨h1, h2, h3, h4'⟩
      rw [hacc]
      simp only [Bool.false_eq_true, if_false, Nat.add_zero]
      rfl
    · rw [if_neg hc]
      by_cases hacc : acceptAny vb ib ro rd max_t (idx + 0) = true
      · exfalso
        apply hc
        simp only [Nat.add_zero, acceptAny, decide_eq_true_eq] at hacc
        exact ⟨hacc.1, hacc.2.1, hacc.2.2.1, Or.inr hacc.2.2.2⟩
      · rw [Bool.not_eq_true] at hacc
        rw [hacc]
        exact ih (idx + 1)

/-- The any-hit traversal is exactly "first accepted triangle of the visit
order, else miss". -/
theorem traverse_any_first (nodes : List BVHNode) (vb : List PerVertexData)
    (ib : List UVec4) (ro rd : Vec3) (max_t : ℚ) :
    ∀ fuel stack,
      intersect_front_to_back false nodes vb ib ro rd max_t fuel stack
          Trace.miss
        = match (visitOrder nodes ro rd fuel stack).find?
            (acceptAny vb ib ro rd max_t) with
          | some i => traceOfAny vb ib ro rd i
          | none => Trace.miss := by
  intro fuel
  induction fuel with
  | zero => intro stack; rfl
  | succ fuel ih =>
    intro stack
    cases stack with
    | nil => rfl
    | cons n stack =>
      rw [intersect_front_to_back, visitOrder]
      split
      · rw [leafLoop_any_first, List.find?_append]
        cases hf : ((List.range (nodes.getD n default).triangle_count).map
            ((nodes.getD n default).ptr + ·)).find?
            (acceptAny vb ib ro rd max_t) with
        | some i => simp [hf]
        | none => simp only [hf, Option.none_or, Bool.false_eq_true, if_false]
                  exact ih stack
      · dsimp only
        simp only [show Trace.miss.len = MISS_LEN from rfl]
        split <;> split <;> exact ih _

/-- C2.  The any-hit traversal never returns a hit beyond `max_t`: every
accepted hit satisfies `0.001 < t ≤ max_t`.  Moreover `intersect_any` is
exactly "the first accepted triangle of the traversal's visit order, else
miss" — it returns immediately on the first accepted hit. -/
theorem any_hit_bound_and_first_accepted (nodes : List BVHNode)
    (vb : List PerVertexData) (ib : List UVec4) (ro rd : Vec3) (max_t : ℚ)
    (fuel : ℕ) :
    ((intersect_any nodes vb ib ro rd max_t fuel).hit = true →
        EPS < (intersect_any nodes vb ib ro rd max_t fuel).len ∧
          (intersect_any nodes vb ib ro rd max_t fuel).len ≤ max_t) ∧
      intersect_any nodes vb ib ro rd max_t fuel
        = match (visitOrder nodes ro rd fuel [0]).find?
            (acceptAny vb ib ro rd max_t) with
          | some i => traceOfAny vb ib ro rd i
          | none => Trace.miss :=
  ⟨traverse_any_bound nodes vb ib ro rd max_t fuel [0] Trace.miss
      (fun h => by simp [Trace.miss] at h),
    traverse_any_first nodes vb ib ro rd max_t fuel [0]⟩

/-- C2, witness: on the one-triangle scene the any-hit query with
`max_t = 5` returns a hit with `0.001 < len = 1 ≤ 5`. -/
theorem any_hit_bound_and_first_accepted_witness :
    EPS < (intersect_any [⟨⟨0, 0, 1⟩, ⟨4, 4, 1⟩, 1, 0⟩] vbC7 [⟨0, 1, 2, 0⟩]
        ⟨1, 1, 0⟩ ⟨0, 0, 1⟩ 5 2).len ∧
      (intersect_any [⟨⟨0, 0, 1⟩, ⟨4, 4, 1⟩, 1, 0⟩] vbC7 [⟨0, 1, 2, 0⟩]
        ⟨1, 1, 0⟩ ⟨0, 0, 1⟩ 5 2).len ≤ 5 :=
  (any_hit_bound_and_first_accepted [⟨⟨0, 0, 1⟩, ⟨4, 4, 1⟩, 1, 0⟩] vbC7
    [⟨0, 1, 2, 0⟩] ⟨1, 1, 0⟩ ⟨0, 0, 1⟩ 5 2).1 (by
      norm_num [intersect_any, intersect_front_to_back, leafLoop,
        muller_trumbore, Trace.miss, BVHNode.is_leaf, vbC7, Vec3.sub,
        Vec3.cross, Vec3.dot, EPS, DET_EPS, MISS_LEN])

/-- Componentwise box membership. -/
def inBox (bmin bmax p : Vec3) : Prop :=
  bmin.x ≤ p.x ∧ p.x ≤ bmax.x ∧ bmin.y ≤ p.y ∧ p.y ≤ bmax.y ∧
    bmin.z ≤ p.z ∧ p.z ≤ bmax.z

/-- All three vertices of triangle `i` lie in the node's AABB. -/
def triInNode (vb : List PerVertexData) (ib : List UVec4) (node : BVHNode)
    (i : ℕ) : Prop :=
  inBox node.aabb_min node.aabb_max
      (vb.getD (ib.getD i ⟨0, 0, 0, 0⟩).x default).vertex ∧
    inBox node.aabb_min node.aabb_max
      (vb.getD (ib.getD i ⟨0, 0, 0, 0⟩).y default).vertex ∧
    inBox node.aabb_min node.aabb_max
      (vb.getD (ib.getD i ⟨0, 0, 0, 0⟩).z default).vertex

/-- Triangle `i` belongs to the subtree rooted at node `n`: it is in the
span of a leaf reachable through `left = ptr` / `right = ptr + 1` links. -/
inductive Under (nodes : List BVHNode) : ℕ → ℕ → Prop where
  | leaf (n i : ℕ) :
      (nodes.getD n default).triangle_count > 0 →
      (nodes.getD n default).ptr ≤ i →
      i < (nodes.getD n default).ptr + (nodes.getD n default).triangle_count →
      Under nodes n i
  | left (n i : ℕ) :
      (nodes.getD n default).triangle_count = 0 →
      Under nodes (nodes.getD n default).ptr i →
      Under nodes n i
  | right (n i : ℕ) :
      (nodes.getD n default).triangle_count = 0 →
      Under nodes ((nodes.getD n default).ptr + 1) i →
      Under nodes n i

/-- Builder guarantees at node `n` with depth budget `d`: the node exists,
leaves cover in-bounds contiguous spans, interior children are the
contiguous pair `ptr, ptr + 1` and well-formed at a smaller budget, and the
node's AABB encloses every triangle of its subtree. -/
inductive WF (nodes : List BVHNode) (vb : List PerVertexData)
    (ib : List UVec4) : ℕ → ℕ → Prop where
  | leaf (n d : ℕ) :
      n < nodes.length →
      (nodes.getD n default).triangle_count > 0 →
      (nodes.getD n default).ptr + (nodes.getD n default).triangle_count
        ≤ ib.length →
      (∀ i, Under nodes n i → triInNode vb ib (nodes.getD n default) i) →
      WF nodes vb ib n d
  | inner (n d : ℕ) :
      n < nodes.length →
      (nodes.getD n default).triangle_count = 0 →
      (∀ i, Under nodes n i → triInNode vb ib (nodes.getD n default) i) →
      WF nodes vb ib (nodes.getD n default).ptr d →
      WF nodes vb ib ((nodes.getD n default).ptr + 1) d →
      WF nodes vb ib n (d + 1)

/-- A well-formed node's AABB encloses its subtree. -/
theorem WF.box {nodes : List BVHNode} {vb : List PerVertexData}
    {ib : List UVec4} {n d : ℕ} (h : WF nodes vb ib n d) :
    ∀ i, Under nodes n i → triInNode vb ib (nodes.getD n default) i := by
  cases h with
  | leaf n d _ _ _ hbox => exact hbox
  | inner n d _ _ hbox _ _ => exact hbox

/-- Subtree triangle indices of a well-formed node are in bounds. -/
theorem WF.under_lt {nodes : List BVHNode} {vb : List PerVertexData}
    {ib : List UVec4} {n d : ℕ} (h : WF nodes vb ib n d) :
    ∀ i, Under nodes n i → i < ib.length := by
  induction h with
  | leaf n d hn hleaf hspan hbox =>
    intro i hu
    cases hu with
    | leaf _ _ _ _ hi => omega
    | left _ _ hc _ => omega
    | right _ _ hc _ => omega
  | inner n d hn hint hbox hl hr ihl ihr =>
    intro i hu
    cases hu with
    | leaf _ _ hc _ _ => omega
    | left _ _ _ hu' => exact ihl i hu'
    | right _ _ _ hu' => exact ihr i hu'

/-- `muller_trumbore` as a flat conditional chain (its `let`s inlined). -/
theorem muller_trumbore_eq (ro rd a b c : Vec3) :
    muller_trumbore ro rd a b c =
      if |(b.sub a).dot (rd.cross (c.sub a))| < DET_EPS then
        ⟨false, 0, decide ((b.sub a).dot (rd.cross (c.sub a)) < 0)⟩
      else if (ro.sub a).dot (rd.cross (c.sub a))
            * (1 / (b.sub a).dot (rd.cross (c.sub a))) < 0 ∨
          (ro.sub a).dot (rd.cross (c.sub a))
            * (1 / (b.sub a).dot (rd.cross (c.sub a))) > 1 then
        ⟨false, 0, decide ((b.sub a).dot (rd.cross (c.sub a)) < 0)⟩
      else if rd.dot ((ro.sub a).cross (b.sub a))
            * (1 / (b.sub a).dot (rd.cross (c.sub a))) < 0 ∨
          (ro.sub a).dot (rd.cross (c.sub a))
              * (1 / (b.sub a).dot (rd.cross (c.sub a)))
            + rd.dot ((ro.sub a).cross (b.sub a))
              * (1 / (b.sub a).dot (rd.cross (c.sub a))) > 1 then
        ⟨false, 0, decide ((b.sub a).dot (rd.cross (c.sub a)) < 0)⟩
      else if (c.sub a).dot ((ro.sub a).cross (b.sub a))
          * (1 / (b.sub a).dot (rd.cross (c.sub a))) < 0 then
        ⟨false, 0, decide ((b.sub a).dot (rd.cross (c.sub a)) < 0)⟩
      else
        ⟨true, (c.sub a).dot ((ro.sub a).cross (b.sub a))
          * (1 / (b.sub a).dot (rd.cross (c.sub a))),
          decide ((b.sub a).dot (rd.cross (c.sub a)) < 0)⟩ := rfl

/-- A successful Möller–Trumbore test solves the ray/triangle linear system
exactly: the hit point `ro + t·rd` is the barycentric combination of the
vertices with in-range coordinates. -/
theorem muller_trumbore_hit_point (ro rd a b c : Vec3) (t : ℚ) (bf : Bool)
    (h : muller_trumbore ro rd a b c = ⟨true, t, bf⟩) :
    ∃ u v : ℚ, 0 ≤ u ∧ 0 ≤ v ∧ u + v ≤ 1 ∧ 0 ≤ t ∧
      ro.add (rd.smul t)
        = (a.smul (1 - u - v)).add ((b.smul u).add (c.smul v)) := by
  rw [muller_trumbore_eq] at h
  split at h
  · simp at h
  · rename_i hdet
    split at h
    · simp at h
    · rename_i hu
      split at h
      · simp at h
      · rename_i hv
        split at h
        · simp at h
        · rename_i ht
          rw [MTResult.mk.injEq] at h
          obtain ⟨-, heq, -⟩ := h
          push_neg at hdet hu hv
          have hdet0 : ((b.sub a).dot (rd.cross (c.sub a))) ≠ 0 := by
            intro h0
            rw [h0] at hdet
            norm_num [DET_EPS] at hdet
          push_neg at ht
          refine ⟨(ro.sub a).dot (rd.cross (c.sub a))
              * (1 / (b.sub a).dot (rd.cross (c.sub a))),
            rd.dot ((ro.sub a).cross (b.sub a))
              * (1 / (b.sub a).dot (rd.cross (c.sub a))), hu.1, hv.1, hv.2,
            ?_, ?_⟩
          · rw [← heq]; exact ht
          · rw [← heq]
            obtain ⟨ax, ay, az⟩ := a
            obtain ⟨bx, by', bz⟩ := b
            obtain ⟨cx, cy, cz⟩ := c
            obtain ⟨ox, oy, oz⟩ := ro
            obtain ⟨dx, dy, dz⟩ := rd
            simp only [Vec3.add, Vec3.sub, Vec3.smul, Vec3.dot, Vec3.cross,
              Vec3.mk.injEq] at hdet0 ⊢
            refine ⟨?_, ?_, ?_⟩ <;> field_simp <;> ring

/-- A barycentric combination of three box points stays in the box. -/
theorem inBox_combo (bmin bmax a b c : Vec3) (ha : inBox bmin bmax a)
    (hb : inBox bmin bmax b) (hc : inBox bmin bmax c) (u v : ℚ)
    (hu : 0 ≤ u) (hv : 0 ≤ v) (huv : u + v ≤ 1) :
    inBox bmin bmax ((a.smul (1 - u - v)).add ((b.smul u).add (c.smul v))) := by
  obtain ⟨ha1, ha2, ha3, ha4, ha5, ha6⟩ := ha
  obtain ⟨hb1, hb2, hb3, hb4, hb5, hb6⟩ := hb
  obtain ⟨hc1, hc2, hc3, hc4, hc5, hc6⟩ := hc
  have hw : 0 ≤ 1 - u - v := by linarith
  refine ⟨?_, ?_, ?_, ?_, ?_, ?_⟩ <;>
    simp only [Vec3.add, Vec3.smul] <;> nlinarith

theorem fmin_val (p q : ℚ) : F32.fmin (.val p) (.val q) = .val (min p q) := rfl

theorem fmax_val (p q : ℚ) : F32.fmax (.val p) (.val q) = .val (max p q) := rfl

theorem fle_val (p q : ℚ) : F32.fle (.val p) (.val q) = decide (p ≤ q) := rfl

theorem flt_val (p q : ℚ) : F32.flt (.val p) (.val q) = decide (p < q) := rfl

theorem feq_val (p q : ℚ) : F32.feq (.val p) (.val q) = decide (p = q) := rfl

theorem fabs_val (q : ℚ) : F32.fabs (.val q) = .val |q| := rfl

/-- The rational slab entry distance (the `tmin` of `intersect_aabb` when no
ray-direction component vanishes). -/
def slabLo (bmin bmax ro rd : Vec3) : ℚ :=
  max (max (min ((bmin.x - ro.x) / rd.x) ((bmax.x - ro.x) / rd.x))
        (min ((bmin.y - ro.y) / rd.y) ((bmax.y - ro.y) / rd.y)))
    (min ((bmin.z - ro.z) / rd.z) ((bmax.z - ro.z) / rd.z))

/-- The rational slab exit distance (the `tmax` of `intersect_aabb`). -/
def slabHi (bmin bmax ro rd : Vec3) : ℚ :=
  min (min (max ((bmin.x - ro.x) / rd.x) ((bmax.x - ro.x) / rd.x))
        (max ((bmin.y - ro.y) / rd.y) ((bmax.y - ro.y) / rd.y)))
    (max ((bmin.z - ro.z) / rd.z) ((bmax.z - ro.z) / rd.z))

/-- With no zero direction component, the slab test is the pure rational
slab test. -/
theorem intersect_aabb_eq_rat (bmin bmax ro rd : Vec3) (prev : ℚ)
    (hx : rd.x ≠ 0) (hy : rd.y ≠ 0) (hz : rd.z ≠ 0) :
    intersect_aabb bmin bmax ro rd prev =
      if slabLo bmin bmax ro rd ≤ slabHi bmin bmax ro rd ∧
          0 < slabHi bmin bmax ro rd ∧ slabLo bmin bmax ro rd < prev then
        F32.val (slabLo bmin bmax ro rd)
      else F32.val F32MAX := by
  rw [intersect_aabb]
  simp only [F32.fdiv, if_pos hx, if_pos hy, if_pos hz, ne_eq,
    not_false_eq_true, if_true, fmin_val, fmax_val, fle_val, flt_val,
    slabLo, slabHi]
  by_cases hc : max (max (min ((bmin.x - ro.x) / rd.x) ((bmax.x - ro.x) / rd.x))
        (min ((bmin.y - ro.y) / rd.y) ((bmax.y - ro.y) / rd.y)))
      (min ((bmin.z - ro.z) / rd.z) ((bmax.z - ro.z) / rd.z))
      ≤ min (min (max ((bmin.x - ro.x) / rd.x) ((bmax.x - ro.x) / rd.x))
        (max ((bmin.y - ro.y) / rd.y) ((bmax.y - ro.y) / rd.y)))
      (max ((bmin.z - ro.z) / rd.z) ((bmax.z - ro.z) / rd.z)) ∧
      0 < min (min (max ((bmin.x - ro.x) / rd.x) ((bmax.x - ro.x) / rd.x))
        (max ((bmin.y - ro.y) / rd.y) ((bmax.y - ro.y) / rd.y)))
      (max ((bmin.z - ro.z) / rd.z) ((bmax.z - ro.z) / rd.z)) ∧
      max (max (min ((bmin.x - ro.x) / rd.x) ((bmax.x - ro.x) / rd.x))
        (min ((bmin.y - ro.y) / rd.y) ((bmax.y - ro.y) / rd.y)))
      (min ((bmin.z - ro.z) / rd.z) ((bmax.z - ro.z) / rd.z)) < prev
  · rw [if_pos hc]
    obtain ⟨h1, h2, h3⟩ := hc
    simp [h1, h2, h3]
  · rw [if_neg hc]
    rw [not_and_or, not_and_or] at hc
    rcases hc with h | h | h <;> simp [h]

/-- Scalar slab bracket: a point between the planes has its parameter
between the two quotients. -/
theorem div_bracket (m M o d t : ℚ) (hd : d ≠ 0) (h1 : m ≤ o + t * d)
    (h2 : o + t * d ≤ M) :
    min ((m - o) / d) ((M - o) / d) ≤ t ∧
      t ≤ max ((m - o) / d) ((M - o) / d) := by
  rcases hd.lt_or_lt with hneg | hpos
  · constructor
    · exact le_trans (min_le_right _ _) ((div_le_iff_of_neg hneg).mpr (by linarith))
    · exact le_trans ((le_div_iff_of_neg hneg).mpr (by linarith)) (le_max_left _ _)
  · constructor
    · exact le_trans (min_le_left _ _) ((div_le_iff hpos).mpr (by linarith))
    · exact le_trans ((le_div_iff hpos).mpr (by linarith)) (le_max_right _ _)

/-- A box point at parameter `t` lies between the slab entry and exit
distances. -/
theorem slab_bracket (bmin bmax ro rd : Vec3) (t : ℚ)
    (hx : rd.x ≠ 0) (hy : rd.y ≠ 0) (hz : rd.z ≠ 0)
    (hbox : inBox bmin bmax (ro.add (rd.smul t))) :
    slabLo bmin bmax ro rd ≤ t ∧ t ≤ slabHi bmin bmax ro rd := by
  obtain ⟨h1, h2, h3, h4, h5, h6⟩ := hbox
  simp only [Vec3.add, Vec3.smul] at h1 h2 h3 h4 h5 h6
  have hxb := div_bracket bmin.x bmax.x ro.x rd.x t hx (by linarith) (by linarith)
  have hyb := div_bracket bmin.y bmax.y ro.y rd.y t hy (by linarith) (by linarith)
  have hzb := div_bracket bmin.z bmax.z ro.z rd.z t hz (by linarith) (by linarith)
  constructor
  · exact max_le (max_le hxb.1 hyb.1) hzb.1
  · exact le_min (le_min hxb.2 hyb.2) hzb.2

/-- The leaf loop never increases the running best length. -/
theorem leafLoop_fst_len_le (NEAREST : Bool) (vb : List PerVertexData)
    (ib : List UVec4) (ro rd : Vec3) (max_t : ℚ) :
    ∀ k idx r, (leafLoop NEAREST vb ib ro rd max_t idx k r).1.len ≤ r.len := by
  intro k
  induction k with
  | zero => intro idx r; exact le_refl _
  | succ k ih =>
    intro idx r
    rw [leafLoop_step]
    split
    · rename_i hc
      have hmin : min r.len (triMT vb ib ro rd idx).t ≤ r.len := min_le_left _ _
      cases NEAREST with
      | true => exact le_trans (ih (idx + 1) _) hmin
      | false => exact hmin
    · exact ih (idx + 1) r

/-- The traversal never increases the running best length. -/
theorem traverse_len_le (NEAREST : Bool) (nodes : List BVHNode)
    (vb : List PerVertexData) (ib : List UVec4) (ro rd : Vec3) (max_t : ℚ) :
    ∀ fuel stack r,
      (intersect_front_to_back NEAREST nodes vb ib ro rd max_t fuel stack
        r).len ≤ r.len := by
  intro fuel
  induction fuel with
  | zero => intro stack r; exact le_refl _
  | succ fuel ih =>
    intro stack r
    cases stack with
    | nil => exact le_refl _
    | cons n stack =>
      rw [intersect_front_to_back]
      split
      · have hl := leafLoop_fst_len_le NEAREST vb ib ro rd max_t
          (nodes.getD n default).triangle_count (nodes.getD n default).ptr r
        split
        · rename_i r' early heq
          rw [heq] at hl
          split
          · exact hl
          · exact le_trans (ih stack r') hl
      · dsimp only
        split <;> split <;> exact ih _ r


theorem validT_some (vb : List PerVertexData) (ib : List UVec4)
    (ro rd : Vec3) (i : ℕ) (t : ℚ) (h : validT vb ib ro rd i = some t) :
    (triMT vb ib ro rd i).hit = true ∧ EPS < t ∧ (triMT vb ib ro rd i).t = t := by
  rw [validT] at h
  split at h
  · rename_i hc
    cases h
    exact ⟨hc.1, hc.2, rfl⟩
  · cases h

theorem mt_eta (m : MTResult) (h : m.hit = true) :
    m = ⟨true, m.t, m.backface⟩ := by
  cases m
  simp only at h
  rw [h]

/-- Every slab entry distance encountered on actual nodes stays strictly
below `f32::MAX` in magnitude (excludes the `±f32::MAX` sentinel
collisions). -/
def SlabBounded (nodes : List BVHNode) (ro rd : Vec3) : Prop :=
  ∀ n, n < nodes.length →
    |slabLo (nodes.getD n default).aabb_min (nodes.getD n default).aabb_max
      ro rd| < F32MAX

theorem WF.lt_length {nodes : List BVHNode} {vb : List PerVertexData}
    {ib : List UVec4} {n d : ℕ} (h : WF nodes vb ib n d) :
    n < nodes.length := by
  cases h with
  | leaf _ _ hn _ _ _ => exact hn
  | inner _ _ hn _ _ _ _ => exact hn

/-- Triangles under a child whose slab test fails lie no nearer than the
current best: the failure certifies `prev ≤ t` for every accepted hit `t`
in the child's subtree. -/
theorem child_fail_bound (nodes : List BVHNode) (vb : List PerVertexData)
    (ib : List UVec4) (ro rd : Vec3) (prev : ℚ) (c d : ℕ)
    (hx : rd.x ≠ 0) (hy : rd.y ≠ 0) (hz : rd.z ≠ 0)
    (hwf : WF nodes vb ib c d)
    (hfail : ¬(slabLo (nodes.getD c default).aabb_min
          (nodes.getD c default).aabb_max ro rd
        ≤ slabHi (nodes.getD c default).aabb_min
          (nodes.getD c default).aabb_max ro rd ∧
      0 < slabHi (nodes.getD c default).aabb_min
          (nodes.getD c default).aabb_max ro rd ∧
      slabLo (nodes.getD c default).aabb_min
          (nodes.getD c default).aabb_max ro rd < prev)) :
    ∀ i t, Under nodes c i → validT vb ib ro rd i = some t → prev ≤ t := by
  intro i t hund hvt
  obtain ⟨hhit, heps, hteq⟩ := validT_some vb ib ro rd i t hvt
  have hmt : muller_trumbore ro rd
      (vb.getD (ib.getD i ⟨0, 0, 0, 0⟩).x default).vertex
      (vb.getD (ib.getD i ⟨0, 0, 0, 0⟩).y default).vertex
      (vb.getD (ib.getD i ⟨0, 0, 0, 0⟩).z default).vertex
      = ⟨true, t, (triMT vb ib ro rd i).backface⟩ := by
    rw [← hteq]
    exact mt_eta _ hhit
  obtain ⟨u, v, hu, hv, huv, -, hpoint⟩ :=
    muller_trumbore_hit_point _ _ _ _ _ _ _ hmt
  obtain ⟨hba, hbb, hbc⟩ := hwf.box i hund
  have hinbox : inBox (nodes.getD c default).aabb_min
      (nodes.getD c default).aabb_max (ro.add (rd.smul t)) := by
    rw [hpoint]
    exact inBox_combo _ _ _ _ _ hba hbb hbc u v hu hv huv
  obtain ⟨hlo, hhi⟩ := slab_bracket _ _ ro rd t hx hy hz hinbox
  have ht0 : 0 < t := lt_trans (by norm_num [EPS]) heps
  by_contra hlt
  push_neg at hlt
  exact hfail ⟨le_trans hlo hhi, lt_of_lt_of_le ht0 hhi,
    lt_of_le_of_lt hlo hlt⟩

/-- The nearest-mode leaf loop bounds the result length by every accepted
distance of the span. -/
theorem leafLoop_nearest_min (vb : List PerVertexData) (ib : List UVec4)
    (ro rd : Vec3) (max_t : ℚ) :
    ∀ k idx r i t, idx ≤ i → i < idx + k → validT vb ib ro rd i = some t →
      (leafLoop true vb ib ro rd max_t idx k r).1.len ≤ t := by
  intro k
  induction k with
  | zero => intro idx r i t h1 h2 _; omega
  | succ k ih =>
    intro idx r i t h1 h2 hvt
    rw [leafLoop_step]
    by_cases hc : (triMT vb ib ro rd idx).hit = true ∧
        EPS < (triMT vb ib ro rd idx).t ∧ (triMT vb ib ro rd idx).t < r.len ∧
        ((true : Bool) = true ∨ (triMT vb ib ro rd idx).t ≤ max_t)
    · rw [if_pos hc, if_pos rfl]
      rcases Nat.eq_or_lt_of_le h1 with heq | hlt
    -- i = idx : the accepted distance enters the running minimum
      · subst heq
        obtain ⟨-, -, hteq⟩ := validT_some vb ib ro rd idx t hvt
        refine le_trans (leafLoop_fst_len_le true vb ib ro rd max_t k (idx + 1) _) ?_
        show min r.len (triMT vb ib ro rd idx).t ≤ t
        rw [← hteq]
        exact min_le_right _ _
      · exact ih (idx + 1) _ i t hlt (by omega) hvt
    · rw [if_neg hc]
      rcases Nat.eq_or_lt_of_le h1 with heq | hlt
      · subst heq
        obtain ⟨hhit, heps, hteq⟩ := validT_some vb ib ro rd idx t hvt
        have hge : r.len ≤ t := by
          by_contra hcon
          push_neg at hcon
          exact hc ⟨hhit, by rw [hteq]; exact heps, by rw [hteq]; exact hcon,
            Or.inl rfl⟩
        exact le_trans (leafLoop_fst_len_le true vb ib ro rd max_t k (idx + 1) r) hge
      · exact ih (idx + 1) r i t hlt (by omega) hvt

/-- The nearest-mode leaf loop result length is the input length or an
accepted distance of the span. -/
theorem leafLoop_nearest_prov (vb : List PerVertexData) (ib : List UVec4)
    (ro rd : Vec3) (max_t : ℚ) :
    ∀ k idx r, (leafLoop true vb ib ro rd max_t idx k r).1.len = r.len ∨
      ∃ i, idx ≤ i ∧ i < idx + k ∧
        validT vb ib ro rd i
          = some (leafLoop true vb ib ro rd max_t idx k r).1.len := by
  intro k
  induction k with
  | zero => intro idx r; exact Or.inl rfl
  | succ k ih =>
    intro idx r
    rw [leafLoop_step]
    by_cases hc : (triMT vb ib ro rd idx).hit = true ∧
        EPS < (triMT vb ib ro rd idx).t ∧ (triMT vb ib ro rd idx).t < r.len ∧
        ((true : Bool) = true ∨ (triMT vb ib ro rd idx).t ≤ max_t)
    · rw [if_pos hc, if_pos rfl]
      obtain ⟨hhit, heps, hlt, -⟩ := hc
      rcases ih (idx + 1)
          ⟨ib.getD idx ⟨0, 0, 0, 0⟩, idx, min r.len (triMT vb ib ro rd idx).t,
            true, (triMT vb ib ro rd idx).backface⟩ with heq | ⟨i, hi1, hi2, hvt⟩
      · right
        refine ⟨idx, le_refl _, by omega, ?_⟩
        rw [heq]
        simp only
        rw [min_eq_right (le_of_lt hlt), validT, if_pos ⟨hhit, heps⟩]
      · right
        exact ⟨i, by omega, by omega, hvt⟩
    · rw [if_neg hc]
      rcases ih (idx + 1) r with heq | ⟨i, hi1, hi2, hvt⟩
      · exact Or.inl heq
      · right
        exact ⟨i, by omega, by omega, hvt⟩

/-- Triangle `i` lies under some node of the stack. -/
def UnderStack (nodes : List BVHNode) (stack : List ℕ) (i : ℕ) : Prop :=
  ∃ n ∈ stack, Under nodes n i

/-- Fuel weight of a stack of depth budgets: a node of budget `d` costs at
most `2^(d+1) - 1` pops. -/
def stackWeight (ds : List ℕ) : ℕ := (ds.map (fun d => 2 ^ (d + 1) - 1)).sum

theorem stackWeight_cons (d : ℕ) (ds : List ℕ) :
    stackWeight (d :: ds) = (2 ^ (d + 1) - 1) + stackWeight ds := by
  simp [stackWeight]

theorem one_le_wt (d : ℕ) : 1 ≤ 2 ^ (d + 1) - 1 := by
  have h : 2 ≤ 2 ^ (d + 1) := by
    calc 2 = 2 ^ 1 := rfl
    _ ≤ 2 ^ (d + 1) := Nat.pow_le_pow_right (by norm_num) (by omega)
  omega

/-- The nearest-mode leaf loop never takes the early return. -/
theorem leafLoop_true_snd (vb : List PerVertexData) (ib : List UVec4)
    (ro rd : Vec3) (max_t : ℚ) :
    ∀ k idx r, (leafLoop true vb ib ro rd max_t idx k r).2 = false := by
  intro k
  induction k with
  | zero => intro idx r; rfl
  | succ k ih =>
    intro idx r
    rw [leafLoop_step]
    split
    · exact ih (idx + 1) _
    · exact ih (idx + 1) r

/-- One interior step of the traversal, with both child slab distances
already rationalized: the node is popped and zero, one or two children are
pushed front-to-back according to the `f32::MAX` sentinel checks. -/
theorem traverse_inner_rat (NEAREST : Bool) (nodes : List BVHNode)
    (vb : List PerVertexData) (ib : List UVec4) (ro rd : Vec3) (max_t : ℚ)
    (fuel : ℕ) (stack : List ℕ) (r : Trace) (n : ℕ)
    (hint : (nodes.getD n default).triangle_count = 0) (lq rq : ℚ)
    (hlq : intersect_aabb
        (nodes.getD (nodes.getD n default).ptr default).aabb_min
        (nodes.getD (nodes.getD n default).ptr default).aabb_max ro rd r.len
      = F32.val lq)
    (hrq : intersect_aabb
        (nodes.getD ((nodes.getD n default).ptr + 1) default).aabb_min
        (nodes.getD ((nodes.getD n default).ptr + 1) default).aabb_max ro rd
        r.len = F32.val rq) :
    intersect_front_to_back NEAREST nodes vb ib ro rd max_t (fuel + 1)
        (n :: stack) r =
      if rq < lq then
        if |rq| = F32MAX then
          intersect_front_to_back NEAREST nodes vb ib ro rd max_t fuel stack r
        else
          intersect_front_to_back NEAREST nodes vb ib ro rd max_t fuel
            (((nodes.getD n default).ptr + 1) ::
              (if |lq| < F32MAX then (nodes.getD n default).ptr :: stack
                else stack)) r
      else
        if |lq| = F32MAX then
          intersect_front_to_back NEAREST nodes vb ib ro rd max_t fuel stack r
        else
          intersect_front_to_back NEAREST nodes vb ib ro rd max_t fuel
            ((nodes.getD n default).ptr ::
              (if |rq| < F32MAX then ((nodes.getD n default).ptr + 1) :: stack
                else stack)) r := by
  rw [intersect_front_to_back]
  rw [if_neg (by simp only [BVHNode.is_leaf, decide_eq_true_eq]; omega)]
  dsimp only
  rw [hlq, hrq]
  simp only [flt_val, fabs_val, feq_val, decide_eq_true_eq]
  by_cases hsw : rq < lq
  · simp only [if_pos hsw, fabs_val, feq_val, flt_val, decide_eq_true_eq]
  · simp only [if_neg hsw, fabs_val, feq_val, flt_val, decide_eq_true_eq]

/-- Characterization of the nearest-hit traversal: under the builder
guarantees, the result length is bounded by every accepted hit under the
stack (no accepted hit is lost to pruning), and is either the incoming
length or the accepted distance of some triangle under the stack. -/
theorem traverse_nearest_char (nodes : List BVHNode) (vb : List PerVertexData)
    (ib : List UVec4) (ro rd : Vec3)
    (hx : rd.x ≠ 0) (hy : rd.y ≠ 0) (hz : rd.z ≠ 0)
    (hslab : SlabBounded nodes ro rd) :
    ∀ fuel stack ds r, List.Forall₂ (WF nodes vb ib) stack ds →
      stackWeight ds ≤ fuel →
      ((∀ i t, UnderStack nodes stack i → validT vb ib ro rd i = some t →
          (intersect_front_to_back true nodes vb ib ro rd 0 fuel stack r).len
            ≤ t) ∧
        ((intersect_front_to_back true nodes vb ib ro rd 0 fuel stack r).len
            = r.len ∨
          ∃ i, UnderStack nodes stack i ∧ validT vb ib ro rd i
            = some (intersect_front_to_back true nodes vb ib ro rd 0 fuel
              stack r).len)) := by
  intro fuel
  induction fuel with
  | zero =>
    intro stack ds r hf hw
    cases hf with
    | nil =>
      exact ⟨fun i t hus _ => absurd hus (by simp [UnderStack]), Or.inl rfl⟩
    | cons hwf hf2 =>
      rename_i n d stack2 ds2
      rw [stackWeight_cons] at hw
      have := one_le_wt d
      omega
  | succ fuel ih =>
    intro stack ds r hf hw
    cases hf with
    | nil =>
      exact ⟨fun i t hus _ => absurd hus (by simp [UnderStack]), Or.inl rfl⟩
    | @cons n d stack2 ds2 hwf hf2 =>
      rw [stackWeight_cons] at hw
      have hw2 : stackWeight ds2 ≤ fuel := by
        have := one_le_wt d
        omega
      cases hwf with
      | leaf _ _ hn hleaf hspan hbox =>
        rw [intersect_front_to_back]
        rw [if_pos (by simp only [BVHNode.is_leaf, decide_eq_true_eq]; omega)]
        have hpair : leafLoop true vb ib ro rd 0 (nodes.getD n default).ptr
            (nodes.getD n default).triangle_count r
            = ((leafLoop true vb ib ro rd 0 (nodes.getD n default).ptr
                (nodes.getD n default).triangle_count r).1, false) := by
          rw [← leafLoop_true_snd vb ib ro rd 0
            (nodes.getD n default).triangle_count (nodes.getD n default).ptr r]
        rw [hpair]
        dsimp only
        rw [if_neg Bool.false_ne_true]
        have hIH := ih stack2 ds2
          (leafLoop true vb ib ro rd 0 (nodes.getD n default).ptr
            (nodes.getD n default).triangle_count r).1 hf2 hw2
        constructor
        · intro i t hus hvt
          rcases hus with ⟨m, hm, hund⟩
          rcases List.mem_cons.mp hm with rfl | hm2
          · cases hund with
            | leaf _ _ _ h1 h2 =>
              exact le_trans
                (traverse_len_le true nodes vb ib ro rd 0 fuel stack2 _)
                (leafLoop_nearest_min vb ib ro rd 0
                  (nodes.getD m default).triangle_count
                  (nodes.getD m default).ptr r i t h1 h2 hvt)
            | left _ _ hc _ => omega
            | right _ _ hc _ => omega
          · exact hIH.1 i t ⟨m, hm2, hund⟩ hvt
        · rcases hIH.2 with heq | ⟨i, ⟨m, hm2, hund⟩, hvt⟩
          · rcases leafLoop_nearest_prov vb ib ro rd 0
                (nodes.getD n default).triangle_count
                (nodes.getD n default).ptr r with h2 | ⟨i, h1, h2, hvt⟩
            · exact Or.inl (by rw [heq, h2])
            · right
              exact ⟨i, ⟨n, List.mem_cons_self n stack2,
                Under.leaf n i hleaf h1 h2⟩, by rw [heq]; exact hvt⟩
          · right
            exact ⟨i, ⟨m, List.mem_cons_of_mem n hm2, hund⟩, hvt⟩
      | inner _ d2 hn hint hbox hlwf hrwf =>
        have hrat : ∀ bmin bmax prev, intersect_aabb bmin bmax ro rd prev =
            if slabLo bmin bmax ro rd ≤ slabHi bmin bmax ro rd ∧
                0 < slabHi bmin bmax ro rd ∧ slabLo bmin bmax ro rd < prev then
              F32.val (slabLo bmin bmax ro rd)
            else F32.val F32MAX :=
          fun bmin bmax prev => intersect_aabb_eq_rat bmin bmax ro rd prev hx hy hz
        have hLb := hslab _ hlwf.lt_length
        have hRb := hslab _ hrwf.lt_length
        set L := (nodes.getD n default).ptr with hLdef
        set loL := slabLo (nodes.getD L default).aabb_min
          (nodes.getD L default).aabb_max ro rd with hloLdef
        set hiL := slabHi (nodes.getD L default).aabb_min
          (nodes.getD L default).aabb_max ro rd with hhiLdef
        set loR := slabLo (nodes.getD (L + 1) default).aabb_min
          (nodes.getD (L + 1) default).aabb_max ro rd with hloRdef
        set hiR := slabHi (nodes.getD (L + 1) default).aabb_min
          (nodes.getD (L + 1) default).aabb_max ro rd with hhiRdef
        have hLMAX : |loL| < F32MAX := hLb
        have hRMAX : |loR| < F32MAX := hRb
        have hMAXabs : |(F32MAX : ℚ)| = F32MAX :=
          abs_of_nonneg (by norm_num [F32MAX])
        have hMAXnotlt : ¬ |(F32MAX : ℚ)| < F32MAX := by
          rw [hMAXabs]
          exact lt_irrefl _
        have hfb := child_fail_bound nodes vb ib ro rd r.len
        by_cases hCL : loL ≤ hiL ∧ 0 < hiL ∧ loL < r.len
        · by_cases hCR : loR ≤ hiR ∧ 0 < hiR ∧ loR < r.len
          · -- both children pass: both are pushed (in some order)
            have hlq : intersect_aabb (nodes.getD L default).aabb_min
                (nodes.getD L default).aabb_max ro rd r.len = F32.val loL := by
              rw [hrat, ← hloLdef, ← hhiLdef, if_pos hCL]
            have hrq : intersect_aabb (nodes.getD (L + 1) default).aabb_min
                (nodes.getD (L + 1) default).aabb_max ro rd r.len
                = F32.val loR := by
              rw [hrat, ← hloRdef, ← hhiRdef, if_pos hCR]
            rw [traverse_inner_rat true nodes vb ib ro rd 0 fuel stack2 r n
              hint loL loR hlq hrq, ← hLdef]
            by_cases hsw : loR < loL
            · rw [if_pos hsw, if_neg (ne_of_lt hRMAX), if_pos hLMAX]
              have hIH := ih ((L + 1) :: L :: stack2) (d2 :: d2 :: ds2) r
                (List.Forall₂.cons hrwf (List.Forall₂.cons hlwf hf2))
                (by
                  rw [stackWeight_cons, stackWeight_cons]
                  have hp : 2 ^ (d2 + 1 + 1) = 2 ^ (d2 + 1) + 2 ^ (d2 + 1) := by
                    rw [pow_succ]; omega
                  have := one_le_wt d2
                  omega)
              constructor
              · intro i t hus hvt
                rcases hus with ⟨m, hm, hund⟩
                rcases List.mem_cons.mp hm with rfl | hm2
                · cases hund with
                  | leaf _ _ hc _ _ => omega
                  | left _ _ _ hu2 =>
                    exact hIH.1 i t ⟨L, by simp, hu2⟩ hvt
                  | right _ _ _ hu2 =>
                    exact hIH.1 i t ⟨L + 1, by simp, hu2⟩ hvt
                · exact hIH.1 i t ⟨m, by simp [hm2], hund⟩ hvt
              · rcases hIH.2 with heq | ⟨i, ⟨m, hm2, hund⟩, hvt⟩
                · exact Or.inl heq
                · right
                  refine ⟨i, ?_, hvt⟩
                  rcases List.mem_cons.mp hm2 with rfl | hm3
                  · exact ⟨n, by simp, Under.right n i hint hund⟩
                  · rcases List.mem_cons.mp hm3 with rfl | hm4
                    · exact ⟨n, by simp, Under.left n i hint hund⟩
                    · exact ⟨m, by simp [hm4], hund⟩
            · rw [if_neg hsw, if_neg (ne_of_lt hLMAX), if_pos hRMAX]
              have hIH := ih (L :: (L + 1) :: stack2) (d2 :: d2 :: ds2) r
                (List.Forall₂.cons hlwf (List.Forall₂.cons hrwf hf2))
                (by
                  rw [stackWeight_cons, stackWeight_cons]
                  have hp : 2 ^ (d2 + 1 + 1) = 2 ^ (d2 + 1) + 2 ^ (d2 + 1) := by
                    rw [pow_succ]; omega
                  have := one_le_wt d2
                  omega)
              constructor
              · intro i t hus hvt
                rcases hus with ⟨m, hm, hund⟩
                rcases List.mem_cons.mp hm with rfl | hm2
                · cases hund with
                  | leaf _ _ hc _ _ => omega
                  | left _ _ _ hu2 =>
                    exact hIH.1 i t ⟨L, by simp, hu2⟩ hvt
                  | right _ _ _ hu2 =>
                    exact hIH.1 i t ⟨L + 1, by simp, hu2⟩ hvt
                · exact hIH.1 i t ⟨m, by simp [hm2], hund⟩ hvt
              · rcases hIH.2 with heq | ⟨i, ⟨m, hm2, hund⟩, hvt⟩
                · exact Or.inl heq
                · right
                  refine ⟨i, ?_, hvt⟩
                  rcases List.mem_cons.mp hm2 with rfl | hm3
                  · exact ⟨n, by simp, Under.left n i hint hund⟩
                  · rcases List.mem_cons.mp hm3 with rfl | hm4
                    · exact ⟨n, by simp, Under.right n i hint hund⟩
                    · exact ⟨m, by simp [hm4], hund⟩
          · -- right child fails: only the left child is pushed
            have hlq : intersect_aabb (nodes.getD L default).aabb_min
                (nodes.getD L default).aabb_max ro rd r.len = F32.val loL := by
              rw [hrat, ← hloLdef, ← hhiLdef, if_pos hCL]
            have hrq : intersect_aabb (nodes.getD (L + 1) default).aabb_min
                (nodes.getD (L + 1) default).aabb_max ro rd r.len
                = F32.val F32MAX := by
              rw [hrat, ← hloRdef, ← hhiRdef, if_neg hCR]
            rw [traverse_inner_rat true nodes vb ib ro rd 0 fuel stack2 r n
              hint loL F32MAX hlq hrq, ← hLdef]
            have hLltMAX : loL < F32MAX := (abs_lt.mp hLMAX).2
            rw [if_neg (not_lt.mpr (le_of_lt hLltMAX)),
              if_neg (ne_of_lt hLMAX), if_neg hMAXnotlt]
            have hIH := ih (L :: stack2) (d2 :: ds2) r
              (List.Forall₂.cons hlwf hf2)
              (by
                rw [stackWeight_cons]
                have hp : 2 ^ (d2 + 1 + 1) = 2 ^ (d2 + 1) + 2 ^ (d2 + 1) := by
                  rw [pow_succ]; omega
                have := one_le_wt d2
                omega)
            constructor
            · intro i t hus hvt
              rcases hus with ⟨m, hm, hund⟩
              rcases List.mem_cons.mp hm with rfl | hm2
              · cases hund with
                | leaf _ _ hc _ _ => omega
                | left _ _ _ hu2 =>
                  exact hIH.1 i t ⟨L, by simp, hu2⟩ hvt
                | right _ _ _ hu2 =>
                  exact le_trans
                    (traverse_len_le true nodes vb ib ro rd 0 fuel _ r)
                    (hfb (L + 1) d2 hx hy hz hrwf hCR i t hu2 hvt)
              · exact hIH.1 i t ⟨m, by simp [hm2], hund⟩ hvt
            · rcases hIH.2 with heq | ⟨i, ⟨m, hm2, hund⟩, hvt⟩
              · exact Or.inl heq
              · right
                refine ⟨i, ?_, hvt⟩
                rcases List.mem_cons.mp hm2 with rfl | hm3
                · exact ⟨n, by simp, Under.left n i hint hund⟩
                · exact ⟨m, by simp [hm3], hund⟩
        · by_cases hCR : loR ≤ hiR ∧ 0 < hiR ∧ loR < r.len
          · -- left child fails: only the right child is pushed
            have hlq : intersect_aabb (nodes.getD L default).aabb_min
                (nodes.getD L default).aabb_max ro rd r.len
                = F32.val F32MAX := by
              rw [hrat, ← hloLdef, ← hhiLdef, if_neg hCL]
            have hrq : intersect_aabb (nodes.getD (L + 1) default).aabb_min
                (nodes.getD (L + 1) default).aabb_max ro rd r.len
                = F32.val loR := by
              rw [hrat, ← hloRdef, ← hhiRdef, if_pos hCR]
            rw [traverse_inner_rat true nodes vb ib ro rd 0 fuel stack2 r n
              hint F32MAX loR hlq hrq, ← hLdef]
            have hRltMAX : loR < F32MAX := (abs_lt.mp hRMAX).2
            rw [if_pos hRltMAX, if_neg (ne_of_lt hRMAX), if_neg hMAXnotlt]
            have hIH := ih ((L + 1) :: stack2) (d2 :: ds2) r
              (List.Forall₂.cons hrwf hf2)
              (by
                rw [stackWeight_cons]
                have hp : 2 ^ (d2 + 1 + 1) = 2 ^ (d2 + 1) + 2 ^ (d2 + 1) := by
                  rw [pow_succ]; omega
                have := one_le_wt d2
                omega)
            constructor
            · intro i t hus hvt
              rcases hus with ⟨m, hm, hund⟩
              rcases List.mem_cons.mp hm with rfl | hm2
              · cases hund with
                | leaf _ _ hc _ _ => omega
                | left _ _ _ hu2 =>
                  exact le_trans
                    (traverse_len_le true nodes vb ib ro rd 0 fuel _ r)
                    (hfb L d2 hx hy hz hlwf hCL i t hu2 hvt)
                | right _ _ _ hu2 =>
                  exact hIH.1 i t ⟨L + 1, by simp, hu2⟩ hvt
              · exact hIH.1 i t ⟨m, by simp [hm2], hund⟩ hvt
            · rcases hIH.2 with heq | ⟨i, ⟨m, hm2, hund⟩, hvt⟩
              · exact Or.inl heq
              · right
                refine ⟨i, ?_, hvt⟩
                rcases List.mem_cons.mp hm2 with rfl | hm3
                · exact ⟨n, by simp, Under.right n i hint hund⟩
                · exact ⟨m, by simp [hm3], hund⟩
          · -- both children fail: the node is skipped entirely
            have hlq : intersect_aabb (nodes.getD L default).aabb_min
                (nodes.getD L default).aabb_max ro rd r.len
                = F32.val F32MAX := by
              rw [hrat, ← hloLdef, ← hhiLdef, if_neg hCL]
            have hrq : intersect_aabb (nodes.getD (L + 1) default).aabb_min
                (nodes.getD (L + 1) default).aabb_max ro rd r.len
                = F32.val F32MAX := by
              rw [hrat, ← hloRdef, ← hhiRdef, if_neg hCR]
            rw [traverse_inner_rat true nodes vb ib ro rd 0 fuel stack2 r n
              hint F32MAX F32MAX hlq hrq, ← hLdef]
            rw [if_neg (lt_irrefl (F32MAX : ℚ)), if_pos hMAXabs]
            have hIH := ih stack2 ds2 r hf2 hw2
            constructor
            · intro i t hus hvt
              rcases hus with ⟨m, hm, hund⟩
              rcases List.mem_cons.mp hm with rfl | hm2
              · cases hund with
                | leaf _ _ hc _ _ => omega
                | left _ _ _ hu2 =>
                  exact le_trans
                    (traverse_len_le true nodes vb ib ro rd 0 fuel _ r)
                    (hfb L d2 hx hy hz hlwf hCL i t hu2 hvt)
                | right _ _ _ hu2 =>
                  exact le_trans
                    (traverse_len_le true nodes vb ib ro rd 0 fuel _ r)
                    (hfb (L + 1) d2 hx hy hz hrwf hCR i t hu2 hvt)
              · exact hIH.1 i t ⟨m, hm2, hund⟩ hvt
            · rcases hIH.2 with heq | ⟨i, ⟨m, hm2, hund⟩, hvt⟩
              · exact Or.inl heq
              · exact Or.inr ⟨i, ⟨m, List.mem_cons_of_mem n hm2, hund⟩, hvt⟩

/-- The linear scan's fold never increases the running best length. -/
theorem foldl_traceUpdate_len_le (vb : List PerVertexData) (ib : List UVec4)
    (ro rd : Vec3) :
    ∀ (l : List ℕ) (r : Trace), (l.foldl (traceUpdate vb ib ro rd) r).len ≤ r.len := by
  intro l
  induction l with
  | nil => intro r; exact le_refl _
  | cons a l ih =>
    intro r
    rw [List.foldl_cons]
    exact le_trans (ih (traceUpdate vb ib ro rd r a))
      (traceUpdate_len_le vb ib ro rd r a)

/-- The linear scan's fold bounds the result length by every accepted
distance of the scanned indices. -/
theorem foldl_traceUpdate_min (vb : List PerVertexData) (ib : List UVec4)
    (ro rd : Vec3) :
    ∀ (l : List ℕ) (r : Trace) i t, i ∈ l → validT vb ib ro rd i = some t →
      (l.foldl (traceUpdate vb ib ro rd) r).len ≤ t := by
  intro l
  induction l with
  | nil => intro r i t hm _; exact absurd hm (List.not_mem_nil i)
  | cons a l ih =>
    intro r i t hm hvt
    rw [List.foldl_cons]
    rcases List.mem_cons.mp hm with rfl | hm2
    · obtain ⟨hhit, heps, hteq⟩ := validT_some vb ib ro rd i t hvt
      by_cases hc : (triMT vb ib ro rd i).hit = true ∧
          EPS < (triMT vb ib ro rd i).t ∧ (triMT vb ib ro rd i).t < r.len
      · refine le_trans (foldl_traceUpdate_len_le vb ib ro rd l _) ?_
        rw [traceUpdate_eq, if_pos hc]
        show min r.len (triMT vb ib ro rd i).t ≤ t
        rw [← hteq]
        exact min_le_right _ _
      · refine le_trans (foldl_traceUpdate_len_le vb ib ro rd l _) ?_
        rw [traceUpdate_eq, if_neg hc]
        by_contra hcon
        push_neg at hcon
        exact hc ⟨hhit, by rw [hteq]; exact heps, by rw [hteq]; exact hcon⟩
    · exact ih (traceUpdate vb ib ro rd r a) i t hm2 hvt

/-- The linear scan's fold result length is the input length or an accepted
distance of some scanned index. -/
theorem foldl_traceUpdate_prov (vb : List PerVertexData) (ib : List UVec4)
    (ro rd : Vec3) :
    ∀ (l : List ℕ) (r : Trace), (l.foldl (traceUpdate vb ib ro rd) r).len = r.len ∨
      ∃ i ∈ l, validT vb ib ro rd i
        = some (l.foldl (traceUpdate vb ib ro rd) r).len := by
  intro l
  induction l with
  | nil => intro r; exact Or.inl rfl
  | cons a l ih =>
    intro r
    rw [List.foldl_cons]
    by_cases hc : (triMT vb ib ro rd a).hit = true ∧
        EPS < (triMT vb ib ro rd a).t ∧ (triMT vb ib ro rd a).t < r.len
    · rcases ih (traceUpdate vb ib ro rd r a) with heq | ⟨i, hi, hvt⟩
      · right
        refine ⟨a, List.mem_cons_self a l, ?_⟩
        rw [heq, traceUpdate_eq, if_pos hc]
        obtain ⟨hhit, heps, hlt⟩ := hc
        show validT vb ib ro rd a = some (min r.len (triMT vb ib ro rd a).t)
        rw [min_eq_right (le_of_lt hlt), validT, if_pos ⟨hhit, heps⟩]
      · exact Or.inr ⟨i, List.mem_cons_of_mem a hi, hvt⟩
    · rw [traceUpdate_eq, if_neg hc]
      rcases ih r with heq | ⟨i, hi, hvt⟩
      · exact Or.inl heq
      · exact Or.inr ⟨i, List.mem_cons_of_mem a hi, hvt⟩

/-- The linear scan's fold preserves the interface invariant. -/
theorem foldl_traceUpdate_sound (vb : List PerVertexData) (ib : List UVec4)
    (ro rd : Vec3) (N : ℕ) :
    ∀ (l : List ℕ) (r : Trace), (∀ i ∈ l, i < N) → SoundTrace vb ib ro rd N r →
      SoundTrace vb ib ro rd N (l.foldl (traceUpdate vb ib ro rd) r) := by
  intro l
  induction l with
  | nil => intro r _ hr; exact hr
  | cons a l ih =>
    intro r hmem hr
    rw [List.foldl_cons]
    exact ih _ (fun i hi => hmem i (List.mem_cons_of_mem a hi))
      (traceUpdate_sound vb ib ro rd N r a (hmem a (List.mem_cons_self a l)) hr)

/-- A `Trace` is determined by its five fields. -/
theorem trace_ext (r s : Trace) (h1 : r.triangle = s.triangle)
    (h2 : r.triangle_index = s.triangle_index) (h3 : r.len = s.len)
    (h4 : r.hit = s.hit) (h5 : r.backface = s.backface) : r = s := by
  cases r with
  | mk rt ri rl rh rb =>
    cases s with
    | mk st si sl sh sb =>
      simp only [Trace.mk.injEq]
      exact ⟨h1, h2, h3, h4, h5⟩

/-- C1 (amended).  Under the builder guarantees (well-formed tree from the
root spanning a depth budget, every triangle in the root's subtree, leaf
spans in bounds), with enough fuel for the tree, the refinement holds on
rays whose direction has no zero component and whose slab entry distances
stay below `f32::MAX` in magnitude, provided no two distinct triangles are
accepted at exactly the minimal distance: the nearest-hit traversal returns
exactly the linear scan's `Trace` — same hit flag, same triangle, same
distance.  (The unqualified claim is false: a zero direction component
makes the slab test produce `0/0 = NaN`, which Rust's NaN-dropping
`min`/`max` turn into a missed box, and at exact distance ties the
traversal order may record a different triangle than the scan's
first-index-wins order.) -/
theorem intersect_nearest_eq_slow (nodes : List BVHNode)
    (vb : List PerVertexData) (ib : List UVec4) (ro rd : Vec3) (fuel d : ℕ)
    (hx : rd.x ≠ 0) (hy : rd.y ≠ 0) (hz : rd.z ≠ 0)
    (hslab : SlabBounded nodes ro rd)
    (hwf : WF nodes vb ib 0 d)
    (hcov : ∀ i, i < ib.length → Under nodes 0 i)
    (hfuel : 2 ^ (d + 1) - 1 ≤ fuel)
    (hspan : ∀ n < nodes.length, (nodes.getD n default).triangle_count > 0 →
      (nodes.getD n default).ptr + (nodes.getD n default).triangle_count
        ≤ ib.length)
    (huniq : ∀ i j t, i < ib.length → j < ib.length →
      validT vb ib ro rd i = some t → validT vb ib ro rd j = some t →
      (∀ k s, k < ib.length → validT vb ib ro rd k = some s → t ≤ s) →
      i = j) :
    intersect_nearest nodes vb ib ro rd fuel
      = intersect_slow_as_shit vb ib ro rd := by
  have hun : intersect_nearest nodes vb ib ro rd fuel
      = intersect_front_to_back true nodes vb ib ro rd 0 fuel [0] Trace.miss :=
    rfl
  have hus : intersect_slow_as_shit vb ib ro rd
      = (List.range ib.length).foldl (traceUpdate vb ib ro rd) Trace.miss :=
    rfl
  have hchar := traverse_nearest_char nodes vb ib ro rd hx hy hz hslab fuel
    [0] [d] Trace.miss (List.Forall₂.cons hwf List.Forall₂.nil)
    (by simpa [stackWeight] using hfuel)
  rw [← hun] at hchar
  have hBmin : ∀ i t, i < ib.length → validT vb ib ro rd i = some t →
      (intersect_nearest nodes vb ib ro rd fuel).len ≤ t := by
    intro i t hi hvt
    exact hchar.1 i t ⟨0, by simp, hcov i hi⟩ hvt
  have hSmin : ∀ i t, i < ib.length → validT vb ib ro rd i = some t →
      (intersect_slow_as_shit vb ib ro rd).len ≤ t := by
    intro i t hi hvt
    rw [hus]
    exact foldl_traceUpdate_min vb ib ro rd (List.range ib.length) Trace.miss
      i t (List.mem_range.mpr hi) hvt
  have hSprov : (intersect_slow_as_shit vb ib ro rd).len = Trace.miss.len ∨
      ∃ i, i < ib.length ∧ validT vb ib ro rd i
        = some (intersect_slow_as_shit vb ib ro rd).len := by
    rcases foldl_traceUpdate_prov vb ib ro rd (List.range ib.length)
        Trace.miss with h | ⟨i, hi, hvt⟩
    · exact Or.inl (by rw [hus]; exact h)
    · exact Or.inr ⟨i, List.mem_range.mp hi, by rw [hus]; exact hvt⟩
  have hlen : (intersect_nearest nodes vb ib ro rd fuel).len
      = (intersect_slow_as_shit vb ib ro rd).len := by
    apply le_antisymm
    · rcases hSprov with heq | ⟨i, hi, hvt⟩
      · rw [heq, hun]
        exact traverse_len_le true nodes vb ib ro rd 0 fuel [0] Trace.miss
      · exact hBmin i _ hi hvt
    · rcases hchar.2 with heq | ⟨i, ⟨m, hm, hund⟩, hvt⟩
      · rw [heq, hus]
        exact foldl_traceUpdate_len_le vb ib ro rd (List.range ib.length)
          Trace.miss
      · have hm0 : m = 0 := by simpa using hm
        subst hm0
        exact hSmin i _ (hwf.under_lt i hund) hvt
  have hBS : SoundTrace vb ib ro rd ib.length
      (intersect_nearest nodes vb ib ro rd fuel) := by
    rw [hun]
    exact traverse_sound true nodes vb ib ro rd 0 ib.length
      (leafSpansBounded_of_lt nodes ib.length hspan) fuel [0] Trace.miss
      (soundTrace_miss vb ib ro rd ib.length)
  have hSS : SoundTrace vb ib ro rd ib.length
      (intersect_slow_as_shit vb ib ro rd) := by
    rw [hus]
    exact foldl_traceUpdate_sound vb ib ro rd ib.length (List.range ib.length)
      Trace.miss (fun i hi => List.mem_range.mp hi)
      (soundTrace_miss vb ib ro rd ib.length)
  cases hBhit : (intersect_nearest nodes vb ib ro rd fuel).hit with
  | false =>
    cases hShit : (intersect_slow_as_shit vb ib ro rd).hit with
    | false => rw [hBS.1 hBhit, hSS.1 hShit]
    | true =>
      exfalso
      have h1 := (hSS.2 hShit).1
      have h2 : (intersect_nearest nodes vb ib ro rd fuel).len = MISS_LEN := by
        rw [hBS.1 hBhit]
        rfl
      rw [hlen] at h2
      rw [h2] at h1
      exact lt_irrefl _ h1
  | true =>
    cases hShit : (intersect_slow_as_shit vb ib ro rd).hit with
    | false =>
      exfalso
      have h1 := (hBS.2 hBhit).1
      have h2 : (intersect_slow_as_shit vb ib ro rd).len = MISS_LEN := by
        rw [hSS.1 hShit]
        rfl
      rw [hlen, h2] at h1
      exact lt_irrefl _ h1
    | true =>
      obtain ⟨hBlt, hBeps, i, hiN, hih, hit_eq, htri, hidx, hbf⟩ :=
        hBS.2 hBhit
      obtain ⟨hSlt, hSeps, j, hjN, hjh, hjt, hStri, hSidx, hSbf⟩ :=
        hSS.2 hShit
      have hvi : validT vb ib ro rd i
          = some (intersect_slow_as_shit vb ib ro rd).len := by
        rw [validT, if_pos ⟨hih, by rw [hit_eq]; exact hBeps⟩]
        rw [hit_eq, hlen]
      have hvj : validT vb ib ro rd j
          = some (intersect_slow_as_shit vb ib ro rd).len := by
        rw [validT, if_pos ⟨hjh, by rw [hjt]; exact hSeps⟩]
        rw [hjt]
      have hij : i = j := huniq i j _ hiN hjN hvi hvj
        (fun k s hk hvk => hSmin k s hk hvk)
      subst hij
      exact trace_ext _ _ (htri.trans hStri.symm) (hidx.trans hSidx.symm)
        hlen (hBhit.trans hShit.symm) (hbf.trans hSbf.symm)

/-- NaN-hole scene: one reachable triangle in the plane `z = 2` under the
root's left child, one far-away triangle under the right child. -/
def vbCN : List PerVertexData :=
  [⟨⟨0, 0, 2⟩, Vec3.zero, Vec3.zero, ⟨0, 0⟩⟩,
   ⟨⟨4, 0, 2⟩, Vec3.zero, Vec3.zero, ⟨0, 0⟩⟩,
   ⟨⟨0, 4, 2⟩, Vec3.zero, Vec3.zero, ⟨0, 0⟩⟩,
   ⟨⟨10, 0, 2⟩, Vec3.zero, Vec3.zero, ⟨0, 0⟩⟩,
   ⟨⟨14, 0, 2⟩, Vec3.zero, Vec3.zero, ⟨0, 0⟩⟩,
   ⟨⟨10, 4, 2⟩, Vec3.zero, Vec3.zero, ⟨0, 0⟩⟩]

def ibCN : List UVec4 := [⟨0, 1, 2, 0⟩, ⟨3, 4, 5, 0⟩]

/-- NaN-hole BVH: interior root, left leaf = triangle 0, right leaf =
triangle 1, tight AABBs. -/
def nodesCN : List BVHNode :=
  [⟨⟨0, 0, 2⟩, ⟨14, 4, 2⟩, 0, 1⟩, ⟨⟨0, 0, 2⟩, ⟨4, 4, 2⟩, 1, 0⟩,
   ⟨⟨10, 0, 2⟩, ⟨14, 4, 2⟩, 1, 1⟩]

/-- NaN-hole ray: origin on the left child's `x = 0` AABB plane, unit
direction with `x`-component zero, so the slab test divides `0 / 0`. -/
def roCN : Vec3 := ⟨0, 1, 0⟩

def rdCN : Vec3 := ⟨0, 0, 1⟩

/-- Tie scene: two coincident triangles in the plane `z = 1`. -/
def vbCT : List PerVertexData :=
  [⟨⟨0, 0, 1⟩, Vec3.zero, Vec3.zero, ⟨0, 0⟩⟩,
   ⟨⟨4, 0, 1⟩, Vec3.zero, Vec3.zero, ⟨0, 0⟩⟩,
   ⟨⟨0, 4, 1⟩, Vec3.zero, Vec3.zero, ⟨0, 0⟩⟩,
   ⟨⟨0, 0, 1⟩, Vec3.zero, Vec3.zero, ⟨0, 0⟩⟩,
   ⟨⟨4, 0, 1⟩, Vec3.zero, Vec3.zero, ⟨0, 0⟩⟩,
   ⟨⟨0, 4, 1⟩, Vec3.zero, Vec3.zero, ⟨0, 0⟩⟩]

def ibCT : List UVec4 := [⟨0, 1, 2, 0⟩, ⟨3, 4, 5, 0⟩]

/-- Tie BVH: interior root, left leaf = triangle 1, right leaf =
triangle 0, identical AABBs. -/
def nodesCT : List BVHNode :=
  [⟨⟨0, 0, 1⟩, ⟨4, 4, 1⟩, 0, 1⟩, ⟨⟨0, 0, 1⟩, ⟨4, 4, 1⟩, 1, 1⟩,
   ⟨⟨0, 0, 1⟩, ⟨4, 4, 1⟩, 1, 0⟩]

def roCT : Vec3 := ⟨0, 0, 0⟩

def rdCT : Vec3 := ⟨1/3, 2/3, 2/3⟩

/-- Witness scene: one triangle under a single-leaf root. -/
def vbW : List PerVertexData :=
  [⟨⟨0, 0, 1⟩, Vec3.zero, Vec3.zero, ⟨0, 0⟩⟩,
   ⟨⟨4, 0, 1⟩, Vec3.zero, Vec3.zero, ⟨0, 0⟩⟩,
   ⟨⟨0, 4, 1⟩, Vec3.zero, Vec3.zero, ⟨0, 0⟩⟩]

def ibW : List UVec4 := [⟨0, 1, 2, 0⟩]

def nodesW : List BVHNode := [⟨⟨0, 0, 1⟩, ⟨4, 4, 1⟩, 1, 0⟩]

def roW : Vec3 := ⟨0, 0, 0⟩

def rdW : Vec3 := ⟨1/3, 2/3, 2/3⟩

theorem underCN1 (i : ℕ) : Under nodesCN 1 i → i = 0 := by
  intro hu
  cases hu with
  | leaf _ _ hc h2 h3 =>
    have e1 : (nodesCN.getD 1 default).ptr = 0 := by decide
    have e2 : (nodesCN.getD 1 default).triangle_count = 1 := by decide
    omega
  | left _ _ hc _ => exact absurd hc (by decide)
  | right _ _ hc _ => exact absurd hc (by decide)

theorem underCN2 (i : ℕ) : Under nodesCN 2 i → i = 1 := by
  intro hu
  cases hu with
  | leaf _ _ hc h2 h3 =>
    have e1 : (nodesCN.getD 2 default).ptr = 1 := by decide
    have e2 : (nodesCN.getD 2 default).triangle_count = 1 := by decide
    omega
  | left _ _ hc _ => exact absurd hc (by decide)
  | right _ _ hc _ => exact absurd hc (by decide)

theorem underCN0 (i : ℕ) : Under nodesCN 0 i → i = 0 ∨ i = 1 := by
  intro hu
  cases hu with
  | leaf _ _ hc _ _ => exact absurd hc (by decide)
  | left _ _ _ hu2 => exact Or.inl (underCN1 i hu2)
  | right _ _ _ hu2 => exact Or.inr (underCN2 i hu2)

theorem wfCN : WF nodesCN vbCN ibCN 0 1 := by
  refine WF.inner 0 0 (by decide) (by decide) ?_ ?_ ?_
  · intro i hu
    rcases underCN0 i hu with rfl | rfl
    · norm_num [triInNode, inBox, nodesCN, vbCN, ibCN, List.getD]
    · norm_num [triInNode, inBox, nodesCN, vbCN, ibCN, List.getD]
  · refine WF.leaf _ 0 (by decide) (by decide) (by decide) ?_
    intro i hu
    have h0 := underCN1 i hu
    subst h0
    norm_num [triInNode, inBox, nodesCN, vbCN, ibCN, List.getD]
  · refine WF.leaf _ 0 (by decide) (by decide) (by decide) ?_
    intro i hu
    have h0 := underCN2 i hu
    subst h0
    norm_num [triInNode, inBox, nodesCN, vbCN, ibCN, List.getD]

theorem covCN : ∀ i, i < ibCN.length → Under nodesCN 0 i := by
  intro i hi
  have h2 : ibCN.length = 2 := by decide
  have h3 : i = 0 ∨ i = 1 := by omega
  rcases h3 with rfl | rfl
  · exact Under.left 0 0 (by decide)
      (Under.leaf _ 0 (by decide) (by decide) (by decide))
  · exact Under.right 0 1 (by decide)
      (Under.leaf _ 1 (by decide) (by decide) (by decide))

theorem underCT1 (i : ℕ) : Under nodesCT 1 i → i = 1 := by
  intro hu
  cases hu with
  | leaf _ _ hc h2 h3 =>
    have e1 : (nodesCT.getD 1 default).ptr = 1 := by decide
    have e2 : (nodesCT.getD 1 default).triangle_count = 1 := by decide
    omega
  | left _ _ hc _ => exact absurd hc (by decide)
  | right _ _ hc _ => exact absurd hc (by decide)

theorem underCT2 (i : ℕ) : Under nodesCT 2 i → i = 0 := by
  intro hu
  cases hu with
  | leaf _ _ hc h2 h3 =>
    have e1 : (nodesCT.getD 2 default).ptr = 0 := by decide
    have e2 : (nodesCT.getD 2 default).triangle_count = 1 := by decide
    omega
  | left _ _ hc _ => exact absurd hc (by decide)
  | right _ _ hc _ => exact absurd hc (by decide)

theorem underCT0 (i : ℕ) : Under nodesCT 0 i → i = 0 ∨ i = 1 := by
  intro hu
  cases hu with
  | leaf _ _ hc _ _ => exact absurd hc (by decide)
  | left _ _ _ hu2 => exact Or.inr (underCT1 i hu2)
  | right _ _ _ hu2 => exact Or.inl (underCT2 i hu2)

theorem wfCT : WF nodesCT vbCT ibCT 0 1 := by
  refine WF.inner 0 0 (by decide) (by decide) ?_ ?_ ?_
  · intro i hu
    rcases underCT0 i hu with rfl | rfl
    · norm_num [triInNode, inBox, nodesCT, vbCT, ibCT, List.getD]
    · norm_num [triInNode, inBox, nodesCT, vbCT, ibCT, List.getD]
  · refine WF.leaf _ 0 (by decide) (by decide) (by decide) ?_
    intro i hu
    have h0 := underCT1 i hu
    subst h0
    norm_num [triInNode, inBox, nodesCT, vbCT, ibCT, List.getD]
  · refine WF.leaf _ 0 (by decide) (by decide) (by decide) ?_
    intro i hu
    have h0 := underCT2 i hu
    subst h0
    norm_num [triInNode, inBox, nodesCT, vbCT, ibCT, List.getD]

theorem covCT : ∀ i, i < ibCT.length → Under nodesCT 0 i := by
  intro i hi
  have h2 : ibCT.length = 2 := by decide
  have h3 : i = 0 ∨ i = 1 := by omega
  rcases h3 with rfl | rfl
  · exact Under.right 0 0 (by decide)
      (Under.leaf _ 0 (by decide) (by decide) (by decide))
  · exact Under.left 0 1 (by decide)
      (Under.leaf _ 1 (by decide) (by decide) (by decide))

theorem underW0 (i : ℕ) : Under nodesW 0 i → i = 0 := by
  intro hu
  cases hu with
  | leaf _ _ hc h2 h3 =>
    have e1 : (nodesW.getD 0 default).ptr = 0 := by decide
    have e2 : (nodesW.getD 0 default).triangle_count = 1 := by decide
    omega
  | left _ _ hc _ => exact absurd hc (by decide)
  | right _ _ hc _ => exact absurd hc (by decide)

theorem wfW : WF nodesW vbW ibW 0 0 := by
  refine WF.leaf 0 0 (by decide) (by decide) (by decide) ?_
  intro i hu
  have h0 := underW0 i hu
  subst h0
  norm_num [triInNode, inBox, nodesW, vbW, ibW, List.getD]

theorem covW : ∀ i, i < ibW.length → Under nodesW 0 i := by
  intro i hi
  have h2 : ibW.length = 1 := by decide
  have h3 : i = 0 := by omega
  subst h3
  exact Under.leaf 0 0 (by decide) (by decide) (by decide)

theorem slabW : SlabBounded nodesW roW rdW := by
  intro n hn
  have h1 : nodesW.length = 1 := by decide
  have h2 : n = 0 := by omega
  subst h2
  have hv : slabLo (nodesW.getD 0 default).aabb_min
      (nodesW.getD 0 default).aabb_max roW rdW = 3 / 2 := by
    norm_num [slabLo, nodesW, roW, rdW, List.getD, min_def, max_def]
  rw [hv, abs_lt]
  constructor <;> norm_num [F32MAX]

/-- C1, counterexample to the claim as stated: two builder-conformant
scenes (well-formed BVH whose leaves cover every triangle, children stored
contiguously, enclosing AABBs, depth well under 32) with unit ray
directions.  In the first, the zero `x`-component of the direction makes
the left child's slab test compute `0/0 = NaN` at the `x = 0` plane;
Rust's NaN-dropping `min`/`max` then report the box as missed and the
traversal returns a miss while the linear scan hits at `t = 2` — the hit
flags differ.  In the second, two coincident triangles are hit at the same
distance `t = 3/2`; the traversal's front-to-back order records triangle
`1` where the scan's first-index-wins order records triangle `0` — the
triangles differ. -/
theorem intersect_nearest_ne_slow :
    (rdCN.dot rdCN = 1 ∧ WF nodesCN vbCN ibCN 0 1 ∧
      (∀ i, i < ibCN.length → Under nodesCN 0 i) ∧
      (intersect_nearest nodesCN vbCN ibCN roCN rdCN 2).hit = false ∧
      (intersect_slow_as_shit vbCN ibCN roCN rdCN).hit = true) ∧
    (rdCT.dot rdCT = 1 ∧ WF nodesCT vbCT ibCT 0 1 ∧
      (∀ i, i < ibCT.length → Under nodesCT 0 i) ∧
      (intersect_nearest nodesCT vbCT ibCT roCT rdCT 3).len
        = (intersect_slow_as_shit vbCT ibCT roCT rdCT).len ∧
      (intersect_nearest nodesCT vbCT ibCT roCT rdCT 3).triangle_index = 1 ∧
      (intersect_slow_as_shit vbCT ibCT roCT rdCT).triangle_index = 0) := by
  refine ⟨⟨by norm_num [rdCN, Vec3.dot], wfCN, covCN, ?_, ?_⟩,
    by norm_num [rdCT, Vec3.dot], wfCT, covCT, ?_, ?_, ?_⟩
  · norm_num [intersect_nearest, intersect_front_to_back, leafLoop,
      intersect_aabb, F32.fdiv, F32.fmin, F32.fmax, F32.fle, F32.flt,
      F32.feq, F32.fabs, muller_trumbore, Trace.miss, BVHNode.is_leaf,
      nodesCN, vbCN, ibCN, roCN, rdCN, Vec3.sub, Vec3.cross, Vec3.dot,
      EPS, DET_EPS, MISS_LEN, F32MAX, min_def, max_def, List.getD]
  · norm_num [intersect_slow_as_shit, List.range_succ, traceUpdate,
      muller_trumbore, Trace.miss, vbCN, ibCN, roCN, rdCN, Vec3.sub,
      Vec3.cross, Vec3.dot, EPS, DET_EPS, MISS_LEN, min_def, List.getD]
  · norm_num [intersect_nearest, intersect_front_to_back, leafLoop,
      intersect_aabb, F32.fdiv, F32.fmin, F32.fmax, F32.fle, F32.flt,
      F32.feq, F32.fabs, muller_trumbore, Trace.miss, BVHNode.is_leaf,
      intersect_slow_as_shit, List.range_succ, traceUpdate, abs_of_nonneg,
      nodesCT, vbCT, ibCT, roCT, rdCT, Vec3.sub, Vec3.cross, Vec3.dot,
      EPS, DET_EPS, MISS_LEN, F32MAX, min_def, max_def, List.getD]
  · norm_num [intersect_nearest, intersect_front_to_back, leafLoop,
      intersect_aabb, F32.fdiv, F32.fmin, F32.fmax, F32.fle, F32.flt,
      F32.feq, F32.fabs, muller_trumbore, Trace.miss, BVHNode.is_leaf,
      abs_of_nonneg, nodesCT, vbCT, ibCT, roCT, rdCT, Vec3.sub, Vec3.cross,
      Vec3.dot, EPS, DET_EPS, MISS_LEN, F32MAX, min_def, max_def, List.getD]
  · norm_num [intersect_slow_as_shit, List.range_succ, traceUpdate,
      muller_trumbore, Trace.miss, abs_of_nonneg, vbCT, ibCT, roCT, rdCT,
      Vec3.sub, Vec3.cross, Vec3.dot, EPS, DET_EPS, MISS_LEN, min_def,
      List.getD]

/-- C1, witness for the amended statement: on a one-leaf scene and a ray
with all direction components nonzero and bounded slab distances, the
traversal returns exactly the scan's `Trace`. -/
theorem intersect_nearest_eq_slow_witness :
    intersect_nearest nodesW vbW ibW roW rdW 1
      = intersect_slow_as_shit vbW ibW roW rdW :=
  intersect_nearest_eq_slow nodesW vbW ibW roW rdW 1 0
    (by norm_num [rdW]) (by norm_num [rdW]) (by norm_num [rdW])
    slabW wfW covW (by norm_num)
    (by
      intro n hn hc
      have h1 : nodesW.length = 1 := by decide
      have h2 : n = 0 := by omega
      subst h2
      decide)
    (by
      intro i j t hi hj h1 h2 hmin
      have h3 : ibW.length = 1 := by decide
      omega)

end Racist
